import Mathlib

/-!
# A shallow embedding of the ecs-proxy change-dispatch engine

This file models the ECS `App` defined in the repository's core module
(`newApp`): the registered entity set, the system registry with its
per-property index (`propMap`), the pending change queue
(`entityChangeQueue`), the callback queue, the reentrancy flag
(`flushScheduled`), and the `batch`/`flush` dispatcher.

Entities, systems, properties and callbacks are identified by natural
numbers.  Property values are natural numbers; a property is "present"
when it has a value (absence models `null`/`undefined`/missing).  System
hook bodies (`onAdd`, `onChange`, `onRemove`, `update`, `updateEntity`)
and enqueued callbacks are command lists drawn from a fixed environment,
executed by a fuel-indexed interpreter `run`.  Hook invocations are
recorded as events in a trace.  Exceptions thrown by hooks are modelled
by the `throwErr` command and a `Bool` "threw" flag in results.

The entity factory (`initializeEntity`) is modelled as the identity on
the entity reference: the entity added is the reference passed in, and
its properties are whatever the property store holds for it (set up with
`setProp`, whose `queueEntityChange` call is a no-op for unregistered
entities, exactly as in the source).
-/

namespace EcsProxy

/-- Commands: the public batch-wrapped API of the app, plus tracked
property writes (`setProp`/`delProp` mirror a change-detection producer:
mutate the property, then call `queueEntityChange` exactly when the value
changed), plus `throwErr` to model a hook raising an exception. -/
inductive Cmd where
  | setProp (e p v : Nat)
  | delProp (e p : Nat)
  | addEntity (e : Nat)
  | removeEntity (e : Nat)
  | addSystem (s : Nat)
  | removeSystem (s : Nat)
  | queueEntityChange (e p : Nat)
  | enqueue (c : Nat)
  | update (d n : Option Int)
  | batch (body : List Cmd)
  | throwErr
deriving Repr

/-- A system definition: required properties (`none` models an absent
`props` field, `some []` an empty array) and the optional hook bodies. -/
structure SysDef where
  props : Option (List Nat)
  onAdd : Option (List Cmd)
  onChange : Option (List Cmd)
  onRemove : Option (List Cmd)
  update : Option (List Cmd)
  updateEntity : Option (List Cmd)

/-- The trivial system definition: no props, no hooks. -/
def SysDef.empty : SysDef := ⟨none, none, none, none, none, none⟩

/-- The fixed environment: system definitions, callback bodies, and the
wall clock used when `update` is called with both arguments omitted. -/
structure Env where
  sys : Nat → SysDef
  cb : Nat → List Cmd
  wallClock : Int

/-- Events recorded in the trace: hook invocations (emitted exactly when
the corresponding hook is defined and invoked), callback enqueues and
runs (a `cbRun` records whether the change queue was empty at the moment
of invocation), and the entity returned by `addEntity`. -/
inductive Ev where
  | addE (s e : Nat)
  | chE (s e : Nat)
  | rmE (s e : Nat)
  | upd (s : Nat) (d n : Int)
  | updE (s e : Nat) (d n : Int)
  | cbRun (c : Nat) (qEmpty : Bool)
  | cbEnq (c : Nat)
  | addRet (e : Nat)
deriving Repr, DecidableEq

/-- The mutable state of an `App`.  Insertion-ordered JS `Set`s and
`Map`s are modelled as lists and association lists. -/
structure St where
  entities : List Nat
  systems : List Nat
  sysEntities : List (Nat × List Nat)
  propMap : List (Nat × List Nat)
  store : List (Nat × List (Nat × Nat))
  entityChangeQueue : List (Nat × List (Nat × List Nat))
  callbackQueue : List Nat
  flushScheduled : Bool
  lastUpdate : Int
deriving Repr, DecidableEq

/-- The initial (empty) app state. -/
def initSt : St := ⟨[], [], [], [], [], [], [], false, 0⟩

/-- Association-list lookup (a JS `Map.get`). -/
def alGet {α : Type} : List (Nat × α) → Nat → Option α
  | [], _ => none
  | (k0, v) :: rest, k => if k0 = k then some v else alGet rest k

/-- Association-list update: replace the value in place when the key is
present (a JS `Map.set` on an existing key keeps its position), else
append the new binding at the end (a new key is appended in insertion
order). -/
def alUpd {α : Type} (f : Option α → α) : List (Nat × α) → Nat → List (Nat × α)
  | [], k => [(k, f none)]
  | (k0, v) :: rest, k =>
    if k0 = k then (k0, f (some v)) :: rest else (k0, v) :: alUpd f rest k

/-- Association-list removal of a key (a JS `Map.delete`). -/
def alErase {α : Type} : List (Nat × α) → Nat → List (Nat × α)
  | [], _ => []
  | (k0, v) :: rest, k => if k0 = k then rest else (k0, v) :: alErase rest k

/-- A JS `Set.add`: append if absent, keep insertion order. -/
def addUnique (l : List Nat) (x : Nat) : List Nat :=
  if l.contains x then l else l ++ [x]

/-- The property bag of an entity (`Object` keyed by property name). -/
def storeOf (st : St) (e : Nat) : List (Nat × Nat) := (alGet st.store e).getD []

/-- `entity[prop] != null`: the property is present on the entity. -/
def present (st : St) (e p : Nat) : Bool := (alGet (storeOf st e) p).isSome

/-- `Object.keys(entity)`: the present property names, insertion order. -/
def presentProps (st : St) (e : Nat) : List Nat := (storeOf st e).map (·.1)

/-- The live entity set of a system (`system.entities`). -/
def membersOf (st : St) (s : Nat) : List Nat := (alGet st.sysEntities s).getD []

/-- Systems indexed under a property (`app.propMap[prop]`, `undefined`
modelled as `none`). -/
def propSystems (st : St) (p : Nat) : Option (List Nat) := alGet st.propMap p

/-- Ensure the entity has a (possibly empty) record in the change queue,
mirroring the `let changes = ...get(entity); if (!changes) { ...set }`
pattern that creates the record before any per-system entries exist. -/
def ensureRec (st : St) (e : Nat) : St :=
  match alGet st.entityChangeQueue e with
  | some _ => st
  | none => { st with entityChangeQueue := st.entityChangeQueue ++ [(e, [])] }

/-- Merge an add-candidate record for `(e, s)`: when an entry exists, add
every required prop to it (`for (const prop of system.props) existing.add`),
else create the entry as `new Set(system.props)`. -/
def mergeCandidate (st : St) (e s : Nat) (l : List Nat) : St :=
  { st with
    entityChangeQueue :=
      alUpd (fun rec? =>
        alUpd (fun ex? =>
          match ex? with
          | some ex => l.foldl addUnique ex
          | none => l.foldl addUnique []) (rec?.getD []) s)
        st.entityChangeQueue e }

/-- Body of `app.addEntity` (inside its `batch`): return the entity
unchanged if already registered; otherwise register it, look up the
systems indexed under each of its present properties, and enqueue an
add-candidate record for each system whose required props are all
present and that does not already contain the entity. -/
def addEntityBody (env : Env) (e : Nat) (st : St) : St × List Ev :=
  if st.entities.contains e then (st, [Ev.addRet e])
  else
    let st1 : St := { st with entities := st.entities ++ [e] }
    let candidates :=
      (presentProps st1 e).foldr
        (fun p acc => ((propSystems st1 p).getD []) ++ acc) []
    let st2 := ensureRec st1 e
    let st3 := candidates.foldl
      (fun acc s =>
        match (env.sys s).props with
        | some l =>
          if l.all (present acc e) && !((membersOf acc s).contains e) then
            mergeCandidate acc e s l
          else acc
        | none => acc) st2
    (st3, [Ev.addRet e])

/-- Body of `app.removeEntity` (inside its `batch`): evict the entity
from the registered set, create its change record, and for every system
currently containing it add an unconditional-removal (empty-set) entry
when none exists. -/
def removeEntityBody (e : Nat) (st : St) : St × List Ev :=
  let st1 : St := { st with entities := st.entities.erase e }
  let st2 := ensureRec st1 e
  let st3 := st2.systems.foldl
    (fun acc s =>
      if (membersOf acc s).contains e then
        { acc with
          entityChangeQueue :=
            alUpd (fun rec? =>
              let r := rec?.getD []
              match alGet r s with
              | some _ => r
              | none => r ++ [(s, [])]) acc.entityChangeQueue e }
      else acc) st2
  (st3, [])

/-- Body of `app.addSystem` (inside its `batch`): ensure the system's
entity set exists, register the system, and when `props` is defined
index it under every required property and enqueue add-candidate records
for every registered entity already satisfying all required props. -/
def addSystemBody (env : Env) (s : Nat) (st : St) : St × List Ev :=
  let st0 : St :=
    { st with sysEntities := alUpd (fun m => m.getD []) st.sysEntities s }
  let st1 : St := { st0 with systems := addUnique st0.systems s }
  match (env.sys s).props with
  | none => (st1, [])
  | some l =>
    let st2 : St :=
      { st1 with
        propMap := l.foldl
          (fun pm p => alUpd (fun cur => cur.getD [] ++ [s]) pm p)
          st1.propMap }
    let st3 := st2.entities.foldl
      (fun acc e =>
        if l.all (present acc e) then mergeCandidate acc e s l else acc) st2
    (st3, [])

/-- Body of `app.removeSystem` (inside its `batch`): for every required
property, `splice(index)` the per-property index list (which removes the
system and every later entry); delete the system from the registry; then,
when `onRemove` is defined, walk `system.entities` and, only when the
entity has no change record at all, create one holding the empty-set
entry (the entry creation sits inside the `if (!changes)` branch in the
source). -/
def removeSystemBody (env : Env) (s : Nat) (st : St) : St × List Ev :=
  let st1 : St :=
    match (env.sys s).props with
    | none => st
    | some l =>
      { st with
        propMap := l.foldl
          (fun pm p =>
            match alGet pm p with
            | none => pm
            | some lst =>
              match lst.findIdx? (· = s) with
              | none => pm
              | some i => alUpd (fun _ => lst.take i) pm p) st.propMap }
  let st2 : St := { st1 with systems := st1.systems.erase s }
  let st3 :=
    if (env.sys s).onRemove.isSome then
      (membersOf st2 s).foldl
        (fun acc e =>
          match alGet acc.entityChangeQueue e with
          | some _ => acc
          | none =>
            { acc with
              entityChangeQueue := acc.entityChangeQueue ++ [(e, [(s, [])])] })
        st2
    else st2
  (st3, [])

/-- Body of `app.queueEntityChange` (inside its `batch`): ignore
unregistered entities; when the property is indexed, create the entity's
record and add the property to the pending set of every indexed system. -/
def queueEntityChangeBody (e p : Nat) (st : St) : St × List Ev :=
  if !(st.entities.contains e) then (st, [])
  else
    match propSystems st p with
    | none => (st, [])
    | some systems =>
      let st1 := ensureRec st e
      let st2 := systems.foldl
        (fun acc s =>
          { acc with
            entityChangeQueue :=
              alUpd (fun rec? =>
                alUpd (fun ex? =>
                  match ex? with
                  | some ex => addUnique ex p
                  | none => [p]) (rec?.getD []) s) acc.entityChangeQueue e })
        st1
      (st2, [])

/-- Derivation of the `(delta, next)` pair in `app.update`: when `delta`
is omitted, `next` defaults to the wall clock and `delta` to
`next - lastUpdate`; when only `next` is omitted it is
`lastUpdate + delta`. -/
def deriveTick (lastUpdate : Int) (d n : Option Int) (wallClock : Int) :
    Int × Int :=
  match d, n with
  | none, none => (wallClock - lastUpdate, wallClock)
  | none, some n => (n - lastUpdate, n)
  | some d, none => (d, lastUpdate + d)
  | some d, some n => (d, n)

/-- The four transitions of the flush loop.  `classifyEntry` evaluates,
on the current state, exactly the conditions of the source's dispatch:
an entity already in the system is a change when every changed prop is
present and both the entity and the system are still registered, else a
removal; an entity not in the system is an add when `props` is defined
and every required prop is present. -/
inductive Transition where
  | change
  | remove
  | add
  | noop
deriving Repr, DecidableEq

/-- Classification of one popped `(system, changed-props)` entry,
translated from the body of the flush loop. -/
def classifyEntry (env : Env) (st : St) (e s : Nat) (ps : List Nat) :
    Transition :=
  if (membersOf st s).contains e then
    if ps.all (present st e) && st.entities.contains e
        && st.systems.contains s then
      Transition.change
    else Transition.remove
  else
    match (env.sys s).props with
    | some l => if l.all (present st e) then Transition.add else Transition.noop
    | none => Transition.noop

/-- Interpreter tasks: a single command, a command list, the flush loop,
and the two loops of `app.update` (over systems, and over a system's
entities). -/
inductive Task where
  | cmd (c : Cmd)
  | cmds (cs : List Cmd)
  | flush
  | uloop (visited : List Nat) (d n : Int)
  | eloop (s : Nat) (rest : List Nat) (d n : Int)

/-- Interpreter results: final state, trace, and whether an exception is
propagating. -/
abbrev Res := St × List Ev × Bool

/-- Prefix a trace onto a result. -/
def prep (evs : List Ev) : Option Res → Option Res
  | none => none
  | some (st, tr, b) => some (st, evs ++ tr, b)

/-- Sequencing with exception propagation: run the continuation only when
the first part finished without throwing. -/
def seqRes (r : Option Res) (k : St → Option Res) : Option Res :=
  match r with
  | none => none
  | some (st, tr, true) => some (st, tr, true)
  | some (st, tr, false) =>
    match k st with
    | none => none
    | some (st2, tr2, b) => some (st2, tr ++ tr2, b)

/-- The fuel-indexed interpreter.  Every public command runs its body
with the reentrancy flag set and, when it was the outermost call
(`willFlush`), runs the flush loop afterwards regardless of whether the
body threw (the `try`/`finally` in `batch`).  The flush loop itself has
no exception handler: a throwing hook propagates out without the
trailing `flushScheduled = false` assignment running. -/
def run (env : Env) : Nat → Task → St → Option Res
  | 0, _, _ => none
  | f + 1, t, st =>
    match t with
    | Task.cmds [] => some (st, [], false)
    | Task.cmds (c :: rest) =>
      seqRes (run env f (Task.cmd c) st) (fun st1 => run env f (Task.cmds rest) st1)
    | Task.cmd Cmd.throwErr => some (st, [], true)
    | Task.cmd (Cmd.enqueue c) =>
      some ({ st with callbackQueue := st.callbackQueue ++ [c] }, [Ev.cbEnq c],
        false)
    | Task.cmd (Cmd.setProp e p v) =>
      if alGet (storeOf st e) p = some v then some (st, [], false)
      else
        let st1 : St :=
          { st with
            store := alUpd (fun m? => alUpd (fun _ => v) (m?.getD []) p)
              st.store e }
        run env f (Task.cmd (Cmd.queueEntityChange e p)) st1
    | Task.cmd (Cmd.delProp e p) =>
      if (alGet (storeOf st e) p).isSome then
        let st1 : St :=
          { st with store := alUpd (fun m? => alErase (m?.getD []) p) st.store e }
        run env f (Task.cmd (Cmd.queueEntityChange e p)) st1
      else some (st, [], false)
    | Task.cmd (Cmd.addEntity e) =>
      let wf := !st.flushScheduled
      let r := addEntityBody env e { st with flushScheduled := true }
      if wf then prep r.2 (run env f Task.flush r.1) else some (r.1, r.2, false)
    | Task.cmd (Cmd.removeEntity e) =>
      let wf := !st.flushScheduled
      let r := removeEntityBody e { st with flushScheduled := true }
      if wf then prep r.2 (run env f Task.flush r.1) else some (r.1, r.2, false)
    | Task.cmd (Cmd.addSystem s) =>
      let wf := !st.flushScheduled
      let r := addSystemBody env s { st with flushScheduled := true }
      if wf then prep r.2 (run env f Task.flush r.1) else some (r.1, r.2, false)
    | Task.cmd (Cmd.removeSystem s) =>
      let wf := !st.flushScheduled
      let r := removeSystemBody env s { st with flushScheduled := true }
      if wf then prep r.2 (run env f Task.flush r.1) else some (r.1, r.2, false)
    | Task.cmd (Cmd.queueEntityChange e p) =>
      let wf := !st.flushScheduled
      let r := queueEntityChangeBody e p { st with flushScheduled := true }
      if wf then prep r.2 (run env f Task.flush r.1) else some (r.1, r.2, false)
    | Task.cmd (Cmd.update d n) =>
      let wf := !st.flushScheduled
      let st0 : St := { st with flushScheduled := true }
      let dn := deriveTick st0.lastUpdate d n env.wallClock
      let st1 : St := { st0 with lastUpdate := dn.2 }
      let body := run env f (Task.uloop [] dn.1 dn.2) st1
      if wf then
        match body with
        | none => none
        | some (st2, tr2, b2) =>
          match run env f Task.flush st2 with
          | none => none
          | some (st3, tr3, b3) => some (st3, tr2 ++ tr3, b2 || b3)
      else body
    | Task.cmd (Cmd.batch cs) =>
      let wf := !st.flushScheduled
      let st0 : St := { st with flushScheduled := true }
      let body := run env f (Task.cmds cs) st0
      if wf then
        match body with
        | none => none
        | some (st2, tr2, b2) =>
          match run env f Task.flush st2 with
          | none => none
          | some (st3, tr3, b3) => some (st3, tr2 ++ tr3, b2 || b3)
      else body
    | Task.uloop visited d n =>
      match st.systems.find? (fun s => !visited.contains s) with
      | none => some (st, [], false)
      | some s =>
        let afterU : St → Option Res := fun stv =>
          seqRes
            (match (env.sys s).updateEntity with
             | none => some (stv, [], false)
             | some _ => run env f (Task.eloop s (membersOf stv s) d n) stv)
            (fun stw => run env f (Task.uloop (visited ++ [s]) d n) stw)
        match (env.sys s).update with
        | none => afterU st
        | some body =>
          prep [Ev.upd s d n]
            (seqRes (run env f (Task.cmds body) st) afterU)
    | Task.eloop s members d n =>
      match members with
      | [] => some (st, [], false)
      | e :: rest =>
        match (env.sys s).updateEntity with
        | none => some (st, [], false)
        | some body =>
          prep [Ev.updE s e d n]
            (seqRes (run env f (Task.cmds body) st)
              (fun st1 => run env f (Task.eloop s rest d n) st1))
    | Task.flush =>
      match st.entityChangeQueue with
      | [] =>
        match st.callbackQueue with
        | [] => some ({ st with flushScheduled := false }, [], false)
        | c :: cbs =>
          let st1 : St := { st with callbackQueue := cbs }
          prep [Ev.cbRun c st.entityChangeQueue.isEmpty]
            (seqRes (run env f (Task.cmds (env.cb c)) st1)
              (fun st2 => run env f Task.flush st2))
      | (_, []) :: rest => run env f Task.flush { st with entityChangeQueue := rest }
      | (e, (s, ps) :: more) :: rest =>
        let st1 : St := { st with entityChangeQueue := (e, more) :: rest }
        match classifyEntry env st1 e s ps with
        | Transition.change =>
          match (env.sys s).onChange with
          | none => run env f Task.flush st1
          | some body =>
            prep [Ev.chE s e]
              (seqRes (run env f (Task.cmds body) st1)
                (fun st2 => run env f Task.flush st2))
        | Transition.remove =>
          let st2 : St :=
            { st1 with
              sysEntities := alUpd (fun m => (m.getD []).erase e)
                st1.sysEntities s }
          match (env.sys s).onRemove with
          | none => run env f Task.flush st2
          | some body =>
            prep [Ev.rmE s e]
              (seqRes (run env f (Task.cmds body) st2)
                (fun st3 => run env f Task.flush st3))
        | Transition.add =>
          let st2 : St :=
            { st1 with
              sysEntities := alUpd (fun m => m.getD [] ++ [e])
                st1.sysEntities s }
          match (env.sys s).onAdd with
          | none => run env f Task.flush st2
          | some body =>
            prep [Ev.addE s e]
              (seqRes (run env f (Task.cmds body) st2)
                (fun st3 => run env f Task.flush st3))
        | Transition.noop => run env f Task.flush st1

/-! ## Basic lemmas about the result combinators -/

theorem prep_some_elim {evs : List Ev} {r : Option Res} {st' : St}
    {tr : List Ev} {b : Bool} (h : prep evs r = some (st', tr, b)) :
    ∃ tr0, r = some (st', tr0, b) ∧ tr = evs ++ tr0 := by
  cases r with
  | none => simp [prep] at h
  | some v =>
    obtain ⟨st0, tr0, b0⟩ := v
    simp only [prep, Option.some.injEq, Prod.mk.injEq] at h
    obtain ⟨rfl, rfl, rfl⟩ := h
    exact ⟨tr0, rfl, rfl⟩

theorem seqRes_some_elim {r : Option Res} {k : St → Option Res} {st' : St}
    {tr : List Ev} {b : Bool} (h : seqRes r k = some (st', tr, b)) :
    (b = true ∧ r = some (st', tr, true)) ∨
      ∃ st1 tr1 tr2, r = some (st1, tr1, false) ∧
        k st1 = some (st', tr2, b) ∧ tr = tr1 ++ tr2 := by
  cases r with
  | none => simp [seqRes] at h
  | some v =>
    obtain ⟨st0, tr0, b0⟩ := v
    cases b0 with
    | true =>
      simp only [seqRes, Option.some.injEq, Prod.mk.injEq] at h
      obtain ⟨rfl, rfl, rfl⟩ := h
      exact Or.inl ⟨rfl, rfl⟩
    | false =>
      cases hk : k st0 with
      | none => simp [seqRes, hk] at h
      | some w =>
        obtain ⟨st2, tr2, b2⟩ := w
        simp only [seqRes, hk, Option.some.injEq, Prod.mk.injEq] at h
        obtain ⟨rfl, rfl, rfl⟩ := h
        exact Or.inr ⟨st0, tr0, tr2, rfl, hk, rfl⟩

/-! ## Postcondition of a normally completing flush

When `flush` finishes without a hook throwing, both queues have been
drained and the reentrancy flag has been cleared. -/

theorem flush_quiescent (env : Env) :
    ∀ f st st' tr, run env f Task.flush st = some (st', tr, false) →
      st'.entityChangeQueue = [] ∧ st'.callbackQueue = [] ∧
        st'.flushScheduled = false := by
  intro f
  induction f with
  | zero => intro st st' tr h; simp [run] at h
  | succ f ih =>
    intro st st' tr h
    rw [run] at h
    simp only [] at h
    repeat' split at h
    all_goals
      first
      | exact ih _ _ _ h
      | (simp only [Option.some.injEq, Prod.mk.injEq] at h
         obtain ⟨rfl, -, -⟩ := h
         refine ⟨?_, ?_, rfl⟩ <;> simp_all)
      | (obtain ⟨tr0, h', -⟩ := prep_some_elim h
         rcases seqRes_some_elim h' with ⟨hb, -⟩ | ⟨st1, tr1, tr2, -, h2, -⟩
         · cases hb
         · exact ih _ _ _ h2)

/-! ## Nested execution: hook bodies run with the reentrancy flag set -/

/-- Events emitted only by the flush loop: dispatch-hook invocations and
callback runs. -/
def isFlushEv : Ev → Bool
  | Ev.addE _ _ => true
  | Ev.chE _ _ => true
  | Ev.rmE _ _ => true
  | Ev.cbRun _ _ => true
  | _ => false

/-- The callbacks enqueued during a trace, in order. -/
def cbEnqs (tr : List Ev) : List Nat :=
  tr.filterMap (fun ev => match ev with | Ev.cbEnq c => some c | _ => none)

/-- The callbacks invoked during a trace, in order. -/
def cbRuns (tr : List Ev) : List Nat :=
  tr.filterMap (fun ev => match ev with | Ev.cbRun c _ => some c | _ => none)

theorem cbEnqs_append (a b : List Ev) :
    cbEnqs (a ++ b) = cbEnqs a ++ cbEnqs b := by
  simp [cbEnqs]

theorem cbRuns_append (a b : List Ev) :
    cbRuns (a ++ b) = cbRuns a ++ cbRuns b := by
  simp [cbRuns]

/-- What execution with the reentrancy flag set guarantees: the flag
stays set, no system's live entity set changes, no flush-only event is
emitted, and the callback queue only grows by the enqueued callbacks. -/
def NestedOK (st st' : St) (tr : List Ev) : Prop :=
  st'.flushScheduled = st.flushScheduled ∧
  (∀ s, membersOf st' s = membersOf st s) ∧
  (∀ ev ∈ tr, isFlushEv ev = false) ∧
  st'.callbackQueue = st.callbackQueue ++ cbEnqs tr

theorem NestedOK.refl (st : St) : NestedOK st st [] := by
  refine ⟨rfl, fun _ => rfl, by simp, by simp [cbEnqs]⟩

theorem NestedOK.trans {st st1 st2 : St} {tr1 tr2 : List Ev}
    (h1 : NestedOK st st1 tr1) (h2 : NestedOK st1 st2 tr2) :
    NestedOK st st2 (tr1 ++ tr2) := by
  obtain ⟨f1, m1, e1, c1⟩ := h1
  obtain ⟨f2, m2, e2, c2⟩ := h2
  refine ⟨f2.trans f1, fun s => (m2 s).trans (m1 s), ?_, ?_⟩
  · intro ev hev
    rcases List.mem_append.1 hev with h | h
    · exact e1 ev h
    · exact e2 ev h
  · rw [c2, c1, cbEnqs_append, List.append_assoc]

/-- The frame shared by all the batch-wrapped command bodies: the flag,
every live entity set, and the callback queue are untouched. -/
def FrameOK (st st' : St) : Prop :=
  st'.flushScheduled = st.flushScheduled ∧
  (∀ s, membersOf st' s = membersOf st s) ∧
  st'.callbackQueue = st.callbackQueue

theorem FrameOK.nestedOK {st st' : St} (h : FrameOK st st') {tr : List Ev}
    (htr : ∀ ev ∈ tr, isFlushEv ev = false ∧ cbEnqs [ev] = []) :
    NestedOK st st' tr := by
  obtain ⟨hf, hm, hc⟩ := h
  have he : cbEnqs tr = [] := by
    induction tr with
    | nil => simp [cbEnqs]
    | cons ev rest ih =>
      have h1 := htr ev (by simp)
      have : cbEnqs (ev :: rest) = cbEnqs [ev] ++ cbEnqs rest := by
        simpa using cbEnqs_append [ev] rest
      rw [this, h1.2, List.nil_append]
      exact ih (fun e he => htr e (by simp [he]))
  exact ⟨hf, hm, fun ev h => (htr ev h).1, by simp [hc, he]⟩

/-! ### Frame lemmas for the command bodies -/

theorem foldl_preserve {α : Type} {P : St → Prop} {g : St → α → St}
    (hf : ∀ st a, P st → P (g st a)) :
    ∀ (l : List α) (st : St), P st → P (l.foldl g st) := by
  intro l
  induction l with
  | nil => intro st h; exact h
  | cons a l ih => intro st h; exact ih _ (hf _ _ h)

theorem alGet_alUpd {α : Type} (f : Option α → α) (l : List (Nat × α))
    (k k' : Nat) :
    alGet (alUpd f l k) k' =
      if k = k' then some (f (alGet l k)) else alGet l k' := by
  induction l with
  | nil =>
    by_cases h : k = k' <;> simp [alUpd, alGet, h]
  | cons p rest ih =>
    obtain ⟨k0, v⟩ := p
    by_cases h0 : k0 = k
    · subst h0
      by_cases h1 : k0 = k' <;> simp [alUpd, alGet, h1]
    · by_cases h1 : k0 = k'
      · subst h1
        simp [alUpd, alGet, h0, Ne.symm h0]
      · simp [alUpd, alGet, h0, h1, ih]

theorem set_flush_eq_self {st : St} (h : st.flushScheduled = true) :
    ({ st with flushScheduled := true } : St) = st := by
  cases st
  simp_all

theorem ensureRec_frame (st : St) (e : Nat) :
    (ensureRec st e).entities = st.entities ∧
    (ensureRec st e).systems = st.systems ∧
    (ensureRec st e).sysEntities = st.sysEntities ∧
    (ensureRec st e).propMap = st.propMap ∧
    (ensureRec st e).store = st.store ∧
    (ensureRec st e).callbackQueue = st.callbackQueue ∧
    (ensureRec st e).flushScheduled = st.flushScheduled ∧
    (ensureRec st e).lastUpdate = st.lastUpdate := by
  unfold ensureRec
  split <;> simp

theorem addEntityBody_frame (env : Env) (e : Nat) (st : St) :
    FrameOK st (addEntityBody env e st).1 ∧
      (addEntityBody env e st).2 = [Ev.addRet e] := by
  unfold addEntityBody
  split
  · exact ⟨⟨rfl, fun _ => rfl, rfl⟩, rfl⟩
  · refine ⟨?_, rfl⟩
    have base : FrameOK st (ensureRec { st with entities := st.entities ++ [e] } e) := by
      obtain ⟨-, -, h3, -, -, h6, h7, -⟩ :=
        ensureRec_frame { st with entities := st.entities ++ [e] } e
      exact ⟨h7, fun s => by simp [membersOf, h3], h6⟩
    refine foldl_preserve ?_ _ _ base
    intro acc s hp
    split
    · split
      · obtain ⟨h1, h2, h3⟩ := hp
        exact ⟨h1, h2, h3⟩
      · exact hp
    · exact hp

theorem removeEntityBody_frame (e : Nat) (st : St) :
    FrameOK st (removeEntityBody e st).1 ∧ (removeEntityBody e st).2 = [] := by
  unfold removeEntityBody
  refine ⟨?_, rfl⟩
  have base : FrameOK st (ensureRec { st with entities := st.entities.erase e } e) := by
    obtain ⟨-, -, h3, -, -, h6, h7, -⟩ :=
      ensureRec_frame { st with entities := st.entities.erase e } e
    exact ⟨h7, fun s => by simp [membersOf, h3], h6⟩
  refine foldl_preserve ?_ _ _ base
  intro acc s hp
  split
  · exact hp
  · exact hp

theorem addSystemBody_frame (env : Env) (s : Nat) (st : St) :
    FrameOK st (addSystemBody env s st).1 ∧ (addSystemBody env s st).2 = [] := by
  unfold addSystemBody
  have base :
      FrameOK st
        { st with sysEntities := alUpd (fun m => m.getD []) st.sysEntities s } := by
    refine ⟨rfl, ?_, rfl⟩
    intro s'
    simp only [membersOf, alGet_alUpd]
    by_cases h : s = s' <;> simp [h]
  split
  · exact ⟨⟨base.1, base.2.1, base.2.2⟩, rfl⟩
  · refine ⟨?_, rfl⟩
    refine foldl_preserve ?_ _ _ ⟨base.1, base.2.1, base.2.2⟩
    intro acc e hp
    split
    · exact hp
    · exact hp

theorem removeSystemBody_frame (env : Env) (s : Nat) (st : St) :
    FrameOK st (removeSystemBody env s st).1 ∧
      (removeSystemBody env s st).2 = [] := by
  have hstep : ∀ (l : List Nat) (st2 : St), FrameOK st st2 →
      FrameOK st
        (l.foldl
          (fun acc e =>
            match alGet acc.entityChangeQueue e with
            | some _ => acc
            | none =>
              { acc with
                entityChangeQueue := acc.entityChangeQueue ++ [(e, [(s, [])])] })
          st2) := by
    intro l st2 h2
    refine foldl_preserve ?_ _ _ h2
    intro acc e hp
    split
    · exact hp
    · exact hp
  constructor
  · simp only [removeSystemBody]
    split
    · split
      · refine hstep _ _ ?_
        exact ⟨rfl, fun _ => rfl, rfl⟩
      · refine hstep _ _ ?_
        exact ⟨rfl, fun _ => rfl, rfl⟩
    · split
      · exact ⟨rfl, fun _ => rfl, rfl⟩
      · exact ⟨rfl, fun _ => rfl, rfl⟩
  · rfl

theorem NestedOK.cons_ev {st st' : St} {tr : List Ev} (ev : Ev)
    (hev : isFlushEv ev = false) (henq : cbEnqs [ev] = [])
    (h : NestedOK st st' tr) : NestedOK st st' (ev :: tr) := by
  obtain ⟨h1, h2, h3, h4⟩ := h
  refine ⟨h1, h2, ?_, ?_⟩
  · intro e he
    rcases List.mem_cons.1 he with rfl | he
    · exact hev
    · exact h3 e he
  · have : cbEnqs (ev :: tr) = cbEnqs [ev] ++ cbEnqs tr := by
      simpa using cbEnqs_append [ev] tr
    rw [this, henq, List.nil_append, h4]

theorem queueEntityChangeBody_frame (e p : Nat) (st : St) :
    FrameOK st (queueEntityChangeBody e p st).1 ∧
      (queueEntityChangeBody e p st).2 = [] := by
  unfold queueEntityChangeBody
  split
  · exact ⟨⟨rfl, fun _ => rfl, rfl⟩, rfl⟩
  · split
    · exact ⟨⟨rfl, fun _ => rfl, rfl⟩, rfl⟩
    · refine ⟨?_, rfl⟩
      have base : FrameOK st (ensureRec st e) := by
        obtain ⟨-, -, h3, -, -, h6, h7, -⟩ := ensureRec_frame st e
        exact ⟨h7, fun s => by simp [membersOf, h3], h6⟩
      refine foldl_preserve ?_ _ _ base
      intro acc s hp
      exact hp

/-- Master lemma: any execution started while `flushScheduled` is set —
in particular the execution of any hook body or enqueued callback — never
calls `flush`: it emits no dispatch events, changes no system's live
entity set, leaves the flag set, and only appends to the callback
queue.  (`update` hook invocations are not excluded: a nested `update`
call does run `update`/`updateEntity` hooks synchronously.) -/
theorem nested_run_spec (env : Env) :
    ∀ f t st st' tr b, run env f t st = some (st', tr, b) →
      st.flushScheduled = true → t ≠ Task.flush →
      NestedOK st st' tr := by
  intro f
  induction f with
  | zero => intro t st st' tr b h _ _; simp [run] at h
  | succ f ih =>
    intro t st st' tr b h hfl ht
    cases t with
    | flush => exact absurd rfl ht
    | cmds cs =>
      cases cs with
      | nil =>
        simp only [run, Option.some.injEq, Prod.mk.injEq] at h
        obtain ⟨rfl, rfl, -⟩ := h
        exact NestedOK.refl st
      | cons c rest =>
        simp only [run] at h
        rcases seqRes_some_elim h with ⟨rfl, h1⟩ |
          ⟨st1, tr1, tr2, h1, h2, rfl⟩
        · exact ih _ _ _ _ _ h1 hfl (fun hc => Task.noConfusion hc)
        · have n1 := ih _ _ _ _ _ h1 hfl (fun hc => Task.noConfusion hc)
          have n2 := ih _ _ _ _ _ h2 (n1.1.trans hfl)
            (fun hc => Task.noConfusion hc)
          exact n1.trans n2
    | uloop visited d n =>
      simp only [run] at h
      split at h
      · simp only [Option.some.injEq, Prod.mk.injEq] at h
        obtain ⟨rfl, rfl, -⟩ := h
        exact NestedOK.refl st
      · rename_i s hfind
        cases hU : (env.sys s).update with
        | none =>
          simp only [hU] at h
          rcases seqRes_some_elim h with ⟨rfl, h1⟩ |
            ⟨st1, tr1, tr2, h1, h2, rfl⟩
          · cases hUE : (env.sys s).updateEntity with
            | none =>
              simp only [hUE] at h1
              simp only [Option.some.injEq, Prod.mk.injEq] at h1
              obtain ⟨rfl, rfl, -⟩ := h1
              exact NestedOK.refl st
            | some body =>
              simp only [hUE] at h1
              exact ih _ _ _ _ _ h1 hfl (fun hc => Task.noConfusion hc)
          · have n1 : NestedOK st st1 tr1 := by
              cases hUE : (env.sys s).updateEntity with
              | none =>
                simp only [hUE] at h1
                simp only [Option.some.injEq, Prod.mk.injEq] at h1
                obtain ⟨rfl, rfl, -⟩ := h1
                exact NestedOK.refl st
              | some body =>
                simp only [hUE] at h1
                exact ih _ _ _ _ _ h1 hfl (fun hc => Task.noConfusion hc)
            have n2 := ih _ _ _ _ _ h2 (n1.1.trans hfl)
              (fun hc => Task.noConfusion hc)
            exact n1.trans n2
        | some body =>
          simp only [hU] at h
          obtain ⟨tr0, h', htr⟩ := prep_some_elim h
          subst htr
          refine NestedOK.cons_ev _ rfl rfl ?_
          rcases seqRes_some_elim h' with ⟨rfl, h1⟩ |
            ⟨st1, tr1, tr2, h1, h2, rfl⟩
          · exact ih _ _ _ _ _ h1 hfl (fun hc => Task.noConfusion hc)
          · have n1 := ih _ _ _ _ _ h1 hfl (fun hc => Task.noConfusion hc)
            have n2 : NestedOK st1 st' tr2 := by
              rcases seqRes_some_elim h2 with ⟨rfl, h3⟩ |
                ⟨st2, tr3, tr4, h3, h4, rfl⟩
              · cases hUE : (env.sys s).updateEntity with
                | none =>
                  simp only [hUE] at h3
                  simp only [Option.some.injEq, Prod.mk.injEq] at h3
                  obtain ⟨rfl, rfl, -⟩ := h3
                  exact NestedOK.refl st1
                | some body2 =>
                  simp only [hUE] at h3
                  exact ih _ _ _ _ _ h3 (n1.1.trans hfl)
                    (fun hc => Task.noConfusion hc)
              · have n3 : NestedOK st1 st2 tr3 := by
                  cases hUE : (env.sys s).updateEntity with
                  | none =>
                    simp only [hUE] at h3
                    simp only [Option.some.injEq, Prod.mk.injEq] at h3
                    obtain ⟨rfl, rfl, -⟩ := h3
                    exact NestedOK.refl st1
                  | some body2 =>
                    simp only [hUE] at h3
                    exact ih _ _ _ _ _ h3 (n1.1.trans hfl)
                      (fun hc => Task.noConfusion hc)
                have n4 := ih _ _ _ _ _ h4 (n3.1.trans (n1.1.trans hfl))
                  (fun hc => Task.noConfusion hc)
                exact n3.trans n4
            exact n1.trans n2
    | eloop s members d n =>
      simp only [run] at h
      split at h
      · simp only [Option.some.injEq, Prod.mk.injEq] at h
        obtain ⟨rfl, rfl, -⟩ := h
        exact NestedOK.refl st
      · split at h
        · simp only [Option.some.injEq, Prod.mk.injEq] at h
          obtain ⟨rfl, rfl, -⟩ := h
          exact NestedOK.refl st
        · obtain ⟨tr0, h', htr⟩ := prep_some_elim h
          subst htr
          refine NestedOK.cons_ev _ rfl rfl ?_
          rcases seqRes_some_elim h' with ⟨rfl, h1⟩ |
            ⟨st1, tr1, tr2, h1, h2, rfl⟩
          · exact ih _ _ _ _ _ h1 hfl (fun hc => Task.noConfusion hc)
          · have n1 := ih _ _ _ _ _ h1 hfl (fun hc => Task.noConfusion hc)
            have n2 := ih _ _ _ _ _ h2 (n1.1.trans hfl)
              (fun hc => Task.noConfusion hc)
            exact n1.trans n2
    | cmd c =>
      cases c with
      | throwErr =>
        simp only [run, Option.some.injEq, Prod.mk.injEq] at h
        obtain ⟨rfl, rfl, -⟩ := h
        exact NestedOK.refl st
      | enqueue c0 =>
        simp only [run, Option.some.injEq, Prod.mk.injEq] at h
        obtain ⟨rfl, rfl, -⟩ := h
        exact ⟨rfl, fun _ => rfl, by simp [isFlushEv], by simp [cbEnqs]⟩
      | setProp e p v =>
        simp only [run] at h
        split at h
        · simp only [Option.some.injEq, Prod.mk.injEq] at h
          obtain ⟨rfl, rfl, -⟩ := h
          exact NestedOK.refl st
        · have n1 := ih _ _ _ _ _ h hfl (fun hc => Task.noConfusion hc)
          have n0 : NestedOK st
              { st with
                store := alUpd (fun m? => alUpd (fun _ => v) (m?.getD []) p) st.store e }
              [] :=
            ⟨rfl, fun _ => rfl, by simp, by simp [cbEnqs]⟩
          simpa using n0.trans n1
      | delProp e p =>
        simp only [run] at h
        split at h
        · have n1 := ih _ _ _ _ _ h hfl (fun hc => Task.noConfusion hc)
          have n0 : NestedOK st
              { st with
                store := alUpd (fun m? => alErase (m?.getD []) p) st.store e }
              [] :=
            ⟨rfl, fun _ => rfl, by simp, by simp [cbEnqs]⟩
          simpa using n0.trans n1
        · simp only [Option.some.injEq, Prod.mk.injEq] at h
          obtain ⟨rfl, rfl, -⟩ := h
          exact NestedOK.refl st
      | addEntity e =>
        simp only [run, hfl, Bool.not_true] at h
        rw [if_neg (by simp)] at h
        simp only [Option.some.injEq, Prod.mk.injEq] at h
        obtain ⟨rfl, rfl, -⟩ := h
        rw [set_flush_eq_self hfl]
        obtain ⟨hf, htr⟩ := addEntityBody_frame env e st
        rw [htr]
        exact hf.nestedOK (by simp [isFlushEv, cbEnqs])
      | removeEntity e =>
        simp only [run, hfl, Bool.not_true] at h
        rw [if_neg (by simp)] at h
        simp only [Option.some.injEq, Prod.mk.injEq] at h
        obtain ⟨rfl, rfl, -⟩ := h
        rw [set_flush_eq_self hfl]
        obtain ⟨hf, htr⟩ := removeEntityBody_frame e st
        rw [htr]
        exact hf.nestedOK (by simp)
      | addSystem s =>
        simp only [run, hfl, Bool.not_true] at h
        rw [if_neg (by simp)] at h
        simp only [Option.some.injEq, Prod.mk.injEq] at h
        obtain ⟨rfl, rfl, -⟩ := h
        rw [set_flush_eq_self hfl]
        obtain ⟨hf, htr⟩ := addSystemBody_frame env s st
        rw [htr]
        exact hf.nestedOK (by simp)
      | removeSystem s =>
        simp only [run, hfl, Bool.not_true] at h
        rw [if_neg (by simp)] at h
        simp only [Option.some.injEq, Prod.mk.injEq] at h
        obtain ⟨rfl, rfl, -⟩ := h
        rw [set_flush_eq_self hfl]
        obtain ⟨hf, htr⟩ := removeSystemBody_frame env s st
        rw [htr]
        exact hf.nestedOK (by simp)
      | queueEntityChange e p =>
        simp only [run, hfl, Bool.not_true] at h
        rw [if_neg (by simp)] at h
        simp only [Option.some.injEq, Prod.mk.injEq] at h
        obtain ⟨rfl, rfl, -⟩ := h
        rw [set_flush_eq_self hfl]
        obtain ⟨hf, htr⟩ := queueEntityChangeBody_frame e p st
        rw [htr]
        exact hf.nestedOK (by simp)
      | update d n =>
        simp only [run, hfl, Bool.not_true] at h
        rw [if_neg (by simp)] at h
        have n1 := ih _ _ _ _ _ h (by simp) (fun hc => Task.noConfusion hc)
        have n0 : NestedOK st
            { st with
              flushScheduled := true
              lastUpdate := (deriveTick st.lastUpdate d n env.wallClock).2 }
            [] :=
          ⟨by simp [hfl], fun _ => rfl, by simp, by simp [cbEnqs]⟩
        simpa using n0.trans n1
      | batch cs =>
        simp only [run, hfl, Bool.not_true] at h
        rw [if_neg (by simp)] at h
        rw [set_flush_eq_self hfl] at h
        exact ih _ _ _ _ _ h hfl (fun hc => Task.noConfusion hc)

/-! ## FIFO discipline of the callback queue in flush -/

theorem cbRuns_nil_of_noFlush {tr : List Ev}
    (h : ∀ ev ∈ tr, isFlushEv ev = false) : cbRuns tr = [] := by
  induction tr with
  | nil => rfl
  | cons ev rest ih =>
    have hev := h ev (by simp)
    have hrest := ih (fun e he => h e (by simp [he]))
    cases ev <;> simp_all [cbRuns, isFlushEv]

theorem cbRuns_cons (ev : Ev) (l : List Ev) :
    cbRuns (ev :: l) = cbRuns [ev] ++ cbRuns l := by
  simpa using cbRuns_append [ev] l

theorem cbEnqs_cons (ev : Ev) (l : List Ev) :
    cbEnqs (ev :: l) = cbEnqs [ev] ++ cbEnqs l := by
  simpa using cbEnqs_append [ev] l

/-- A flush that completes normally pops callbacks in FIFO order: the
sequence of callbacks it invokes is exactly the callback queue at entry
followed by every callback enqueued during the flush, in enqueue order;
on exit the callback queue is empty. -/
theorem flush_fifo (env : Env) :
    ∀ f st st' tr, st.flushScheduled = true →
      run env f Task.flush st = some (st', tr, false) →
      cbRuns tr = st.callbackQueue ++ cbEnqs tr ∧
        st'.callbackQueue = [] := by
  intro f
  induction f with
  | zero => intro st st' tr _ h; simp [run] at h
  | succ f ih =>
    intro st st' tr hfl h
    rw [run] at h
    simp only [] at h
    split at h
    · -- change queue empty
      split at h
      · -- both queues empty
        rename_i hcq hcb
        simp only [Option.some.injEq, Prod.mk.injEq] at h
        obtain ⟨rfl, rfl, -⟩ := h
        simp [cbRuns, cbEnqs, hcb]
      · -- pop one callback
        rename_i hcq hcb
        obtain ⟨tr0, h', htr⟩ := prep_some_elim h
        subst htr
        rcases seqRes_some_elim h' with ⟨hb, -⟩ |
          ⟨st1, tr1, tr2, h1, h2, htr2⟩
        · cases hb
        · subst htr2
          have hn := nested_run_spec env f _ _ _ _ _ h1
            (by simpa using hfl) (fun hc => Task.noConfusion hc)
          have hr := ih _ _ _ (hn.1.trans (by simpa using hfl)) h2
          refine ⟨?_, hr.2⟩
          have hruns1 : cbRuns tr1 = [] := cbRuns_nil_of_noFlush hn.2.2.1
          have hcb1 := hn.2.2.2
          rw [cbRuns_append, cbRuns_append, cbEnqs_append, cbEnqs_append,
            hruns1, hr.1, hcb1]
          simp [cbRuns, cbEnqs, hcb]
    · -- drained record: drop it
      rename_i e rest hcq
      have hx := ih _ _ _ (by simpa using hfl) h
      simpa using hx
    · -- process one (system, props) entry
      rename_i e s ps more rest hcq
      have hstep : ∀ (ev : Ev) (st2 : St),
          cbRuns [ev] = [] → cbEnqs [ev] = [] →
          st2.flushScheduled = true →
          st2.callbackQueue = st.callbackQueue →
          ∀ body tr2,
            prep [ev] (seqRes (run env f (Task.cmds body) st2)
              (fun st3 => run env f Task.flush st3)) = some (st', tr2, false) →
            cbRuns tr2 = st.callbackQueue ++ cbEnqs tr2 ∧
              st'.callbackQueue = [] := by
        intro ev st2 hev1 hev2 hfl2 hcb2 body trx hh
        obtain ⟨tr0, h', htr⟩ := prep_some_elim hh
        subst htr
        rcases seqRes_some_elim h' with ⟨hb, -⟩ |
          ⟨st3, tr1, tr2, h1, h2, htr2⟩
        · cases hb
        · subst htr2
          have hn := nested_run_spec env f _ _ _ _ _ h1 hfl2
            (fun hc => Task.noConfusion hc)
          have hr := ih _ _ _ (hn.1.trans hfl2) h2
          refine ⟨?_, hr.2⟩
          have hruns1 : cbRuns tr1 = [] := cbRuns_nil_of_noFlush hn.2.2.1
          have hcb1 := hn.2.2.2
          rw [cbRuns_append, cbRuns_append, cbEnqs_append, cbEnqs_append,
            hev1, hev2, hruns1, hr.1, hcb1, hcb2]
          simp
      split at h
      · -- change transition
        split at h
        · have hx := ih _ _ _ (by simpa using hfl) h
          simpa using hx
        · exact hstep _ _ (by simp [cbRuns]) (by simp [cbEnqs]) (by simpa using hfl)
            (by simp) _ _ h
      · -- remove transition
        split at h
        · have hx := ih _ _ _ (by simpa using hfl) h
          simpa using hx
        · exact hstep _ _ (by simp [cbRuns]) (by simp [cbEnqs]) (by simpa using hfl)
            (by simp) _ _ h
      · -- add transition
        split at h
        · have hx := ih _ _ _ (by simpa using hfl) h
          simpa using hx
        · exact hstep _ _ (by simp [cbRuns]) (by simp [cbEnqs]) (by simpa using hfl)
            (by simp) _ _ h
      · -- no-op
        have hx := ih _ _ _ (by simpa using hfl) h
        simpa using hx

/-! ## Claim C3: classification of flush transitions -/

/-- C3 (amended): when flush pops a `(system, changed-props)` entry,
exactly one of four transitions occurs, decided by `classifyEntry` on
the current state: a change iff the entity is in the system's set, every
*changed* prop in the entry is present, and both the entity and the
system are still registered; a removal iff the entity is in the system's
set and that conjunction fails (some changed prop absent, or the entity
or the system deregistered — an empty changed-set passes the prop test
vacuously); an add iff the entity is not in the system's set, `props` is
defined, and every required prop is present. -/
theorem c3_flush_classification (env : Env) (st : St) (e s : Nat)
    (ps : List Nat) :
    (classifyEntry env st e s ps = Transition.change ↔
      e ∈ membersOf st s ∧ (∀ p ∈ ps, present st e p = true) ∧
        e ∈ st.entities ∧ s ∈ st.systems) ∧
    (classifyEntry env st e s ps = Transition.remove ↔
      e ∈ membersOf st s ∧
        ¬((∀ p ∈ ps, present st e p = true) ∧ e ∈ st.entities ∧
          s ∈ st.systems)) ∧
    (classifyEntry env st e s ps = Transition.add ↔
      e ∉ membersOf st s ∧
        ∃ l, (env.sys s).props = some l ∧ ∀ p ∈ l, present st e p = true) := by
  have hQ : (ps.all (present st e) && st.entities.contains e
      && st.systems.contains s) = true ↔
      (∀ p ∈ ps, present st e p = true) ∧ e ∈ st.entities ∧
        s ∈ st.systems := by
    simp [List.all_eq_true, List.elem_iff, and_assoc]
  unfold classifyEntry
  by_cases h1 : e ∈ membersOf st s
  · rw [if_pos (List.elem_iff.2 h1)]
    by_cases h2 : (ps.all (present st e) && st.entities.contains e
        && st.systems.contains s) = true
    · rw [if_pos h2]
      refine ⟨iff_of_true rfl ⟨h1, hQ.1 h2⟩, ?_, ?_⟩
      · exact iff_of_false (by simp)
          (fun hc => hc.2 (hQ.1 h2))
      · exact iff_of_false (by simp) (fun hc => hc.1 h1)
    · rw [if_neg h2]
      refine ⟨?_, iff_of_true rfl ⟨h1, fun hq => h2 (hQ.2 hq)⟩, ?_⟩
      · exact iff_of_false (by simp) (fun hc => h2 (hQ.2 hc.2))
      · exact iff_of_false (by simp) (fun hc => hc.1 h1)
  · rw [if_neg (fun hc => h1 (List.elem_iff.1 hc))]
    cases hp : (env.sys s).props with
    | none =>
      simp only
      refine ⟨?_, ?_, ?_⟩
      · exact iff_of_false (by simp) (fun hc => h1 hc.1)
      · exact iff_of_false (by simp) (fun hc => h1 hc.1)
      · refine iff_of_false (by simp) ?_
        rintro ⟨-, l, hl, -⟩
        cases hl
    | some l =>
      simp only
      by_cases h3 : l.all (present st e) = true
      · rw [if_pos h3]
        refine ⟨?_, ?_, ?_⟩
        · exact iff_of_false (by simp) (fun hc => h1 hc.1)
        · exact iff_of_false (by simp) (fun hc => h1 hc.1)
        · refine iff_of_true rfl ⟨h1, l, rfl, ?_⟩
          intro p hpmem
          exact List.all_eq_true.1 h3 p hpmem
      · rw [if_neg h3]
        refine ⟨?_, ?_, ?_⟩
        · exact iff_of_false (by simp) (fun hc => h1 hc.1)
        · exact iff_of_false (by simp) (fun hc => h1 hc.1)
        · refine iff_of_false (by simp) ?_
          rintro ⟨-, l', hl', hall⟩
          obtain rfl : l' = l := by
            injection hl' with h
            exact h.symm
          exact h3 (List.all_eq_true.2 hall)

/-! ## Concrete scenario environments -/

/-- An environment with no systems and no callbacks. -/
def envTriv : Env := { sys := fun _ => SysDef.empty, cb := fun _ => [], wallClock := 0 }

/-- C1 scenario: system 1 requires prop 0 and its `onAdd` calls
`update(1, 3)`; system 2 has an `update` hook. -/
def envC1 : Env :=
  { sys := fun s =>
      if s = 1 then
        { SysDef.empty with
          props := some [0]
          onAdd := some [Cmd.update (some 1) (some 3)] }
      else if s = 2 then { SysDef.empty with update := some [] }
      else SysDef.empty,
    cb := fun _ => [], wallClock := 0 }

def progC1 : List Cmd :=
  [Cmd.addSystem 1, Cmd.addSystem 2, Cmd.setProp 9 0 5, Cmd.addEntity 9]

/-- C1 counterexample: the only hook-invoking top-level call is
`addEntity 9`; its flush dispatches system 1's `onAdd`, and the trace
shows system 2's `update` hook firing strictly between that dispatch and
the end of the flush — i.e. while `onAdd` is still executing, because
the hook body `update(1, 3)` runs the update loop synchronously.  So
"no other system hook is invoked while a hook executes" is false when
`update`/`updateEntity` hooks are counted, as the claim counts them. -/
theorem c1_counterexample :
    (run envC1 60 (Task.cmds progC1) initSt).map
      (fun r => (r.2.1, r.1.lastUpdate, r.2.2)) =
    some ([Ev.addRet 9, Ev.addE 1 9, Ev.upd 2 1 3], (3 : Int), false) := by decide

/-- C1 (amended): while any flush-dispatched hook or enqueued callback
is executing — that is, during any command execution started with the
reentrancy flag set, which is how the engine runs every hook body — no
`onAdd`/`onChange`/`onRemove` hook and no enqueued callback is invoked,
no change record is applied to any system's live entity set, the flag
stays set, and the callback queue only grows by the callbacks the hook
enqueues.  Consequences of the hook's mutations are applied, and their
hooks run, only after the hook returns, by the enclosing flush.  (A
nested `update` call does synchronously run `update`/`updateEntity`
hooks — the part of the original claim refuted by
`c1_counterexample`.) -/
theorem c1_hook_isolation (env : Env) (f : Nat) (cmds : List Cmd)
    (st st' : St) (tr : List Ev) (b : Bool)
    (h : run env f (Task.cmds cmds) st = some (st', tr, b))
    (hfl : st.flushScheduled = true) :
    (∀ ev ∈ tr, isFlushEv ev = false) ∧
    (∀ s, membersOf st' s = membersOf st s) ∧
    st'.flushScheduled = true ∧
    st'.callbackQueue = st.callbackQueue ++ cbEnqs tr := by
  have hn := nested_run_spec env f _ _ _ _ _ h hfl
    (fun hc => Task.noConfusion hc)
  exact ⟨hn.2.2.1, hn.2.1, hn.1.trans hfl, hn.2.2.2⟩

/-- The state used by the C1 witness: the flag set, nothing else. -/
def stW : St := { initSt with flushScheduled := true }

/-- The state after the C1 witness execution: one tracked write landed
in the store, everything else untouched, the flag still set. -/
def stW2 : St := { initSt with store := [(1, [(2, 3)])], flushScheduled := true }

theorem c1_hook_isolation_witness :
    run envTriv 10 (Task.cmds [Cmd.setProp 1 2 3]) stW =
        some (stW2, [], false) ∧
      stW.flushScheduled = true ∧
      ((∀ ev ∈ ([] : List Ev), isFlushEv ev = false) ∧
        (∀ s, membersOf stW2 s = membersOf stW s) ∧
        stW2.flushScheduled = true ∧
        stW2.callbackQueue = stW.callbackQueue ++ cbEnqs []) :=
  ⟨by decide, by decide,
    c1_hook_isolation envTriv 10 [Cmd.setProp 1 2 3] stW stW2 [] false
      (by decide) (by decide)⟩

/-- C2 scenario: system 1 has an empty (but defined) `props` array. -/
def envC2 : Env :=
  { sys := fun s =>
      if s = 1 then { SysDef.empty with props := some [] } else SysDef.empty,
    cb := fun _ => [], wallClock := 0 }

def progC2 : List Cmd := [Cmd.addSystem 1, Cmd.addEntity 9]

/-- C2 failing input: add a system with `props: []`, then add an entity.
The entity vacuously satisfies every required prop, and the spec's
membership invariant demands it be in the system's live set at
quiescence, but `addEntity` finds candidate systems through the
per-property index, where an empty-props system is never listed, so no
record is enqueued and the entity never joins.  (`addSystem`'s own scan
*does* treat the empty array as matching all existing entities, so the
index miss is inconsistent with the code's own intent.) -/
theorem c2_membership_invariant_bug :
    ((run envC2 40 (Task.cmds progC2) initSt).map
      (fun r => (r.1.entities, r.1.systems, membersOf r.1 1)) =
      some ([9], [1], [])) ∧
    ((run envC2 40 (Task.cmds progC2) initSt).map
      (fun r => (r.1.flushScheduled, r.1.entityChangeQueue, r.2.2)) =
      some (false, [], false)) :=
  ⟨by decide, by rfl⟩

/-- C3 scenario: system 1 requires prop 0 and defines all three
dispatch hooks (with empty bodies). -/
def envC3 : Env :=
  { sys := fun s =>
      if s = 1 then
        { SysDef.empty with
          props := some [0]
          onAdd := some []
          onChange := some []
          onRemove := some [] }
      else SysDef.empty,
    cb := fun _ => [], wallClock := 0 }

def progC3 : List Cmd :=
  [Cmd.addSystem 1, Cmd.setProp 9 0 5, Cmd.addEntity 9,
    Cmd.batch [Cmd.removeEntity 9, Cmd.addEntity 9]]

/-- C3 counterexample: `removeEntity 9` enqueues the unconditional
removal (empty-set) marker for system 1, and `addEntity 9` in the same
batch re-registers the entity without touching that entry.  When flush
pops the empty-set marker the code fires `onChange` (the marker passes
the changed-props check vacuously and entity and system are registered)
and the entity stays a member — the claim says the empty-set marker
implies `onRemove` fires and the entity is deleted. -/
theorem c3_counterexample :
    (run envC3 60 (Task.cmds progC3) initSt).map
      (fun r => (r.2.1, membersOf r.1 1, r.1.entities, r.2.2)) =
    some ([Ev.addRet 9, Ev.addE 1 9, Ev.addRet 9, Ev.chE 1 9],
      [9], [9], false) := by decide

/-- C4 scenario: system 1 requires prop 1 with an `onChange` hook;
system 2 requires prop 0 with an `onRemove` hook. -/
def envC4 : Env :=
  { sys := fun s =>
      if s = 1 then
        { SysDef.empty with
          props := some [1]
          onChange := some [] }
      else if s = 2 then
        { SysDef.empty with
          props := some [0]
          onRemove := some [] }
      else SysDef.empty,
    cb := fun _ => [], wallClock := 0 }

def progC4 : List Cmd :=
  [Cmd.addSystem 1, Cmd.addSystem 2, Cmd.setProp 9 1 1, Cmd.setProp 9 0 1,
    Cmd.addEntity 9, Cmd.batch [Cmd.setProp 9 1 2, Cmd.removeSystem 2]]

/-- C4 failing input: entity 9 is in system 2's live set and has a
pending change record (for system 1 only) when `removeSystem 2` runs.
Because the source only creates the unconditional-removal entry inside
the `if (!changes)` branch, the existing record suppresses it: the final
trace has no `onRemove` for system 2, and entity 9 is still in the
removed system's live set. -/
theorem c4_remove_system_bug :
    ((run envC4 80 (Task.cmds progC4) initSt).map
      (fun r => (r.2.1, membersOf r.1 2, r.1.systems)) =
      some ([Ev.addRet 9, Ev.chE 1 9], [9], [1])) ∧
    ((run envC4 80 (Task.cmds progC4) initSt).map
      (fun r => (r.1.entityChangeQueue, r.1.flushScheduled, r.2.2)) =
      some ([], false, false)) :=
  ⟨by decide, by rfl⟩

/-- C5 scenario: system 1 requires prop 0 and its `onAdd` throws. -/
def envC5 : Env :=
  { sys := fun s =>
      if s = 1 then
        { SysDef.empty with
          props := some [0]
          onAdd := some [Cmd.throwErr] }
      else SysDef.empty,
    cb := fun _ => [], wallClock := 0 }

def progC5 : List Cmd := [Cmd.addSystem 1, Cmd.setProp 9 0 1, Cmd.addEntity 9]

/-- C5 failing input: `addEntity 9`'s trailing flush dispatches the
throwing `onAdd`.  `flush` has no try/finally around its loop, so the
exception propagates with `flushScheduled` left `true` (first
conjunct).  A later public call (`addEntity 8`) then sees the flag set,
skips its trailing flush, and leaves its change records queued forever
(second conjunct) — the claim says the flag is reset to `false` on exit
from the outermost batch even when a hook throws. -/
theorem c5_reentrancy_flag_bug :
    ((run envC5 60 (Task.cmds progC5) initSt).map
      (fun r => (r.1.flushScheduled, r.2.2)) = some (true, true)) ∧
    (((run envC5 60 (Task.cmds progC5) initSt).bind
      (fun r => run envC5 60 (Task.cmd (Cmd.addEntity 8)) r.1)).map
      (fun r => (r.2.1, r.1.flushScheduled,
        r.1.entityChangeQueue.length, r.2.2)) =
      some ([Ev.addRet 8], true, 2, false)) :=
  ⟨by decide, by decide⟩

/-- C6 counterexample: a standalone `enqueue` outside any batch only
appends the callback; it triggers no flush and the callback is not
invoked (no `cbRun` event), contradicting "fn is invoked exactly once
... including when enqueue is called outside any active batch". -/
theorem c6_counterexample :
    run envTriv 10 (Task.cmd (Cmd.enqueue 0)) initSt =
      some ({ initSt with callbackQueue := [0] }, [Ev.cbEnq 0], false) := by
  decide

/-! ## Claim C6: enqueue and the callback queue -/

/-- Callbacks are only invoked at moments when the change queue is
empty: every `cbRun` event records `true` for the queue-emptiness
snapshot taken at its invocation. -/
theorem flush_cbRun_flag (env : Env) :
    ∀ f st st' tr b,
      run env f Task.flush st = some (st', tr, b) →
      st.flushScheduled = true →
      ∀ c q, Ev.cbRun c q ∈ tr → q = true := by
  intro f
  induction f with
  | zero => intro st st' tr b h _; simp [run] at h
  | succ f ih =>
    intro st st' tr b h hfl
    rw [run] at h
    simp only [] at h
    split at h
    · split at h
      · simp only [Option.some.injEq, Prod.mk.injEq] at h
        obtain ⟨-, rfl, -⟩ := h
        intro c q hc
        simp at hc
      · obtain ⟨tr0, h', htr⟩ := prep_some_elim h
        subst htr
        intro c q hc
        rcases List.mem_cons.1 hc with heq2 | hin
        · injection heq2 with hc1 hc2
          rw [hc2]
          have hq0 : st.entityChangeQueue = [] := by assumption
          rw [hq0]
          rfl
        · replace hin : Ev.cbRun c q ∈ tr0 := hin
          rcases seqRes_some_elim h' with ⟨-, h1⟩ |
            ⟨st1, tr1, tr2, h1, h2, htr2⟩
          · have hn := nested_run_spec env f _ _ _ _ _ h1
              (by simpa using hfl) (fun hcon => Task.noConfusion hcon)
            exact absurd (hn.2.2.1 _ hin) (by simp [isFlushEv])
          · subst htr2
            rcases List.mem_append.1 hin with hin1 | hin2
            · have hn := nested_run_spec env f _ _ _ _ _ h1
                (by simpa using hfl) (fun hcon => Task.noConfusion hcon)
              exact absurd (hn.2.2.1 _ hin1) (by simp [isFlushEv])
            · have hn := nested_run_spec env f _ _ _ _ _ h1
                (by simpa using hfl) (fun hcon => Task.noConfusion hcon)
              exact ih _ _ _ _ h2 (hn.1.trans (by simpa using hfl)) c q hin2
    · exact fun c q hc => ih _ _ _ _ h (by simpa using hfl) c q hc
    · have hstep : ∀ (ev : Ev) (st2 : St),
          (∀ c q, Ev.cbRun c q ≠ ev) →
          st2.flushScheduled = true →
          ∀ body trx bx,
            prep [ev] (seqRes (run env f (Task.cmds body) st2)
              (fun st3 => run env f Task.flush st3)) = some (st', trx, bx) →
            ∀ c q, Ev.cbRun c q ∈ trx → q = true := by
        intro ev st2 hne hfl2 body trx bx hh c q hc
        obtain ⟨tr0, h', htr⟩ := prep_some_elim hh
        subst htr
        rcases List.mem_cons.1 hc with heq2 | hin
        · exact absurd heq2 (hne c q)
        · replace hin : Ev.cbRun c q ∈ tr0 := hin
          rcases seqRes_some_elim h' with ⟨-, h1⟩ |
            ⟨st3, tr1, tr2, h1, h2, htr2⟩
          · have hn := nested_run_spec env f _ _ _ _ _ h1 hfl2
              (fun hcon => Task.noConfusion hcon)
            exact absurd (hn.2.2.1 _ hin) (by simp [isFlushEv])
          · subst htr2
            rcases List.mem_append.1 hin with hin1 | hin2
            · have hn := nested_run_spec env f _ _ _ _ _ h1 hfl2
                (fun hcon => Task.noConfusion hcon)
              exact absurd (hn.2.2.1 _ hin1) (by simp [isFlushEv])
            · have hn := nested_run_spec env f _ _ _ _ _ h1 hfl2
                (fun hcon => Task.noConfusion hcon)
              exact ih _ _ _ _ h2 (hn.1.trans hfl2) c q hin2
      split at h
      · split at h
        · exact fun c q hc => ih _ _ _ _ h (by simpa using hfl) c q hc
        · exact hstep _ _ (by intro c q hcon; cases hcon) (by simpa using hfl)
            _ _ _ h
      · split at h
        · exact fun c q hc => ih _ _ _ _ h (by simpa using hfl) c q hc
        · exact hstep _ _ (by intro c q hcon; cases hcon) (by simpa using hfl)
            _ _ _ h
      · split at h
        · exact fun c q hc => ih _ _ _ _ h (by simpa using hfl) c q hc
        · exact hstep _ _ (by intro c q hcon; cases hcon) (by simpa using hfl)
            _ _ _ h
      · exact fun c q hc => ih _ _ _ _ h (by simpa using hfl) c q hc

/-- C6 (amended): `enqueue` only appends the callback to the queue
(emitting no invocation) and does not itself trigger a flush — the
refuted part of the original claim is that a standalone `enqueue` still
gets its callback invoked (`c6_counterexample`).  When a flush does run
and completes normally: every queued callback is invoked exactly once,
in FIFO order (queue order, then enqueue order for callbacks added
during the flush), each invocation happens at a moment when every
pending change record has been applied (the change queue is empty), and
the callback queue ends empty. -/
theorem c6_enqueue_fifo (env : Env) (f : Nat) (st st' : St) (tr : List Ev)
    (hfl : st.flushScheduled = true)
    (h : run env f Task.flush st = some (st', tr, false)) :
    cbRuns tr = st.callbackQueue ++ cbEnqs tr ∧
    st'.callbackQueue = [] ∧
    (∀ c q, Ev.cbRun c q ∈ tr → q = true) ∧
    (∀ (g : Nat) (c : Nat) (st2 : St),
      run env (g + 1) (Task.cmd (Cmd.enqueue c)) st2 =
        some ({ st2 with callbackQueue := st2.callbackQueue ++ [c] },
          [Ev.cbEnq c], false)) := by
  refine ⟨(flush_fifo env f st st' tr hfl h).1,
    (flush_fifo env f st st' tr hfl h).2,
    flush_cbRun_flag env f st st' tr false h hfl, ?_⟩
  intro g c st2
  rw [run]

/-- The entry state for the C6 witness: callback 5 queued, flag set. -/
def stC6 : St := { initSt with callbackQueue := [5], flushScheduled := true }

theorem c6_enqueue_fifo_witness :
    run envTriv 10 Task.flush stC6 = some (initSt, [Ev.cbRun 5 true], false) ∧
    stC6.flushScheduled = true ∧
    (cbRuns [Ev.cbRun 5 true] =
        stC6.callbackQueue ++ cbEnqs [Ev.cbRun 5 true] ∧
      initSt.callbackQueue = [] ∧
      (∀ c q, Ev.cbRun c q ∈ [Ev.cbRun 5 true] → q = true) ∧
      (∀ (g : Nat) (c : Nat) (st2 : St),
        run envTriv (g + 1) (Task.cmd (Cmd.enqueue c)) st2 =
          some ({ st2 with callbackQueue := st2.callbackQueue ++ [c] },
            [Ev.cbEnq c], false))) :=
  ⟨by decide, by decide,
    c6_enqueue_fifo envTriv 10 stC6 initSt [Ev.cbRun 5 true]
      (by decide) (by decide)⟩

/-! ## Claim C7: idempotence of addEntity -/

/-- C7: calling `addEntity` twice in succession with the same reference
is idempotent.  If a first top-level `addEntity e` completes normally
(and no hook removed `e` again), then the second call returns the same
entity (its only event is `addRet e`), performs no state change at all,
enqueues no records, and so triggers no hook — in particular each
matching system's `onAdd` fires exactly as often as for the single
call.  The first call's return value `addRet e` is in its trace as
well. -/
theorem c7_add_entity_idempotent (env : Env) (f : Nat) (e : Nat)
    (st0 st1 : St) (tr1 : List Ev)
    (h0 : st0.flushScheduled = false)
    (h1 : run env f (Task.cmd (Cmd.addEntity e)) st0 = some (st1, tr1, false))
    (hmem : e ∈ st1.entities) :
    Ev.addRet e ∈ tr1 ∧
    ∀ g, run env (g + 2) (Task.cmd (Cmd.addEntity e)) st1 =
      some (st1, [Ev.addRet e], false) := by
  have hmain : Ev.addRet e ∈ tr1 ∧ st1.entityChangeQueue = [] ∧
      st1.callbackQueue = [] ∧ st1.flushScheduled = false := by
    cases f with
    | zero => simp [run] at h1
    | succ f0 =>
      rw [run] at h1
      simp only [h0, Bool.not_false] at h1
      rw [if_pos trivial] at h1
      obtain ⟨tr0, h', htr⟩ := prep_some_elim h1
      subst htr
      have htrb := (addEntityBody_frame env e
        { st0 with flushScheduled := true }).2
      refine ⟨?_, flush_quiescent env f0 _ _ _ h'⟩
      rw [htrb]
      simp
  refine ⟨hmain.1, ?_⟩
  intro g
  have hq1 := hmain.2.1
  have hq2 := hmain.2.2.1
  have hq3 := hmain.2.2.2
  have hcont : st1.entities.contains e = true := List.elem_iff.2 hmem
  have hbody : addEntityBody env e { st1 with flushScheduled := true } =
      ({ st1 with flushScheduled := true }, [Ev.addRet e]) := by
    unfold addEntityBody
    rw [if_pos]
    exact hcont
  have hflush : run env (g + 1) Task.flush
      ({ st1 with flushScheduled := true } : St) =
      some ({ st1 with flushScheduled := false }, [], false) := by
    rw [run]
    simp only [hq1, hq2]
  have hst : ({ st1 with flushScheduled := false } : St) = st1 := by
    cases st1
    simp_all
  rw [run]
  simp only [hq3, Bool.not_false]
  rw [if_pos trivial, hbody, hflush, hst]
  rfl

/-- The state after the C7 witness's first call. -/
def stC7 : St := { initSt with entities := [0] }

theorem c7_add_entity_idempotent_witness :
    run envTriv 10 (Task.cmd (Cmd.addEntity 0)) initSt =
        some (stC7, [Ev.addRet 0], false) ∧
      0 ∈ stC7.entities ∧
      (Ev.addRet 0 ∈ [Ev.addRet 0] ∧
        run envTriv 9 (Task.cmd (Cmd.addEntity 0)) stC7 =
          some (stC7, [Ev.addRet 0], false)) :=
  ⟨by decide, by decide,
    (c7_add_entity_idempotent envTriv 10 0 initSt stC7 [Ev.addRet 0]
      (by decide) (by decide) (by decide)).1,
    (c7_add_entity_idempotent envTriv 10 0 initSt stC7 [Ev.addRet 0]
      (by decide) (by decide) (by decide)).2 7⟩

/-! ## Claim C10: removeEntity on an unknown entity is a no-op -/

/-- C10: for an entity that is neither registered nor in any registered
system's live set, `removeEntity` (from a quiescent state) invokes no
hook and, once its batch's flush completes, leaves the registered set,
every system's live set, the property index, the store, and both queues
exactly as they were: the final state is the entry state and the trace
is empty.  (Internally the call does create a transient empty change
record, which the flush drains and deletes.) -/
theorem c10_remove_absent_entity (env : Env) (g : Nat) (e : Nat) (st : St)
    (hent : e ∉ st.entities)
    (hsys : ∀ s ∈ st.systems, e ∉ membersOf st s)
    (hfl : st.flushScheduled = false)
    (hq : st.entityChangeQueue = []) (hcb : st.callbackQueue = []) :
    run env (g + 3) (Task.cmd (Cmd.removeEntity e)) st =
      some (st, [], false) := by
  obtain ⟨ents, syss, se, pm, sto, q, cb, fl, lu⟩ := st
  simp only [St.entityChangeQueue] at hq
  simp only [St.callbackQueue] at hcb
  simp only [St.flushScheduled] at hfl
  simp only [St.entities] at hent
  subst hq hcb hfl
  have hbody : removeEntityBody e ⟨ents, syss, se, pm, sto, [], [], true, lu⟩ =
      (⟨ents, syss, se, pm, sto, [(e, [])], [], true, lu⟩, []) := by
    have hfold : ∀ (l : List Nat) (acc : St), acc.sysEntities = se →
        (∀ s ∈ l, e ∉ membersOf acc s) →
        l.foldl
          (fun acc s =>
            if (membersOf acc s).contains e then
              { acc with
                entityChangeQueue :=
                  alUpd (fun rec? =>
                    let r := rec?.getD []
                    match alGet r s with
                    | some _ => r
                    | none => r ++ [(s, [])]) acc.entityChangeQueue e }
            else acc) acc = acc := by
      intro l
      induction l with
      | nil => intro acc _ _; rfl
      | cons s rest ih =>
        intro acc hse hall
        simp only [List.foldl_cons]
        rw [if_neg (fun hcon =>
          hall s (by simp) (List.elem_iff.1 hcon))]
        exact ih acc hse (fun s' hs' => hall s' (List.mem_cons_of_mem _ hs'))
    simp only [removeEntityBody]
    rw [List.erase_of_not_mem hent]
    have hens : ensureRec ⟨ents, syss, se, pm, sto, [], [], true, lu⟩ e =
        ⟨ents, syss, se, pm, sto, [(e, [])], [], true, lu⟩ := by
      unfold ensureRec
      simp [alGet]
    rw [hens]
    rw [hfold syss ⟨ents, syss, se, pm, sto, [(e, [])], [], true, lu⟩ rfl
      (fun s hs => hsys s hs)]
  have hflush : run env (g + 2) Task.flush
      (⟨ents, syss, se, pm, sto, [(e, [])], [], true, lu⟩ : St) =
      some (⟨ents, syss, se, pm, sto, [], [], false, lu⟩, [], false) := by
    rw [run]
    simp only []
    rw [run]
  rw [run]
  simp only [St.flushScheduled, Bool.not_false]
  rw [if_pos trivial, hbody, hflush]
  rfl

/-! ## Claim C8: the update clock -/

/-- The expected trace of one update pass over systems with no-op
hooks: one `upd` event per system whose `update` hook is defined. -/
def updTrace (env : Env) (l : List Nat) (d n : Int) : List Ev :=
  (l.map (fun s =>
    if (env.sys s).update.isSome then [Ev.upd s d n] else [])).flatten

theorem updTrace_mem {env : Env} {l : List Nat} {d n : Int} {ev : Ev}
    (h : ev ∈ updTrace env l d n) : ∃ s ∈ l, ev = Ev.upd s d n := by
  induction l with
  | nil => simp [updTrace] at h
  | cons s rest ih =>
    simp only [updTrace, List.map_cons, List.flatten_cons] at h
    rcases List.mem_append.1 h with h1 | h2
    · by_cases hu : (env.sys s).update.isSome
      · rw [if_pos hu] at h1
        simp only [List.mem_singleton] at h1
        exact ⟨s, by simp, h1⟩
      · rw [if_neg hu] at h1
        simp at h1
    · obtain ⟨s', hs', hev⟩ := ih h2
      exact ⟨s', by simp [hs'], hev⟩

/-- The update loop over systems whose `update` bodies are empty (or
absent) and whose `updateEntity` hooks are absent does not change the
state and emits exactly `updTrace` of the not-yet-visited systems. -/
theorem find?_of_filter_cons {p : Nat → Bool} :
    ∀ {l : List Nat} {s : Nat} {rest : List Nat},
      l.filter p = s :: rest → l.find? p = some s := by
  intro l
  induction l with
  | nil => intro s rest h; cases h
  | cons a t ih =>
    intro s rest h
    by_cases hp : p a
    · rw [List.filter_cons_of_pos hp] at h
      rw [List.find?_cons_of_pos _ hp]
      cases h
      rfl
    · rw [List.filter_cons_of_neg (by simpa using hp)] at h
      rw [List.find?_cons_of_neg _ (by simpa using hp)]
      exact ih h

theorem uloop_noop (env : Env) (d n : Int) :
    ∀ (k : Nat) (visited : List Nat) (st : St) (g : Nat),
      st.systems.Nodup →
      (∀ s ∈ st.systems,
        ((env.sys s).update = none ∨ (env.sys s).update = some []) ∧
          (env.sys s).updateEntity = none) →
      (st.systems.filter (fun s => !visited.contains s)).length = k →
      k + 1 ≤ g →
      run env g (Task.uloop visited d n) st =
        some (st, updTrace env
          (st.systems.filter (fun s => !visited.contains s)) d n, false) := by
  intro k
  induction k with
  | zero =>
    intro visited st g hnd hhooks hlen hg
    obtain ⟨g0, rfl⟩ : ∃ g0, g = g0 + 1 := ⟨g - 1, by omega⟩
    have hnil : st.systems.filter (fun s => !visited.contains s) = [] :=
      List.length_eq_zero.1 hlen
    have hfind : st.systems.find? (fun s => !visited.contains s) = none := by
      rw [List.find?_eq_none]
      intro x hx hcon
      have : x ∈ st.systems.filter (fun s => !visited.contains s) :=
        List.mem_filter.2 ⟨hx, hcon⟩
      rw [hnil] at this
      cases this
    rw [run]
    simp only [hfind, hnil, updTrace, List.map_nil]
    rfl
  | succ k ih =>
    intro visited st g hnd hhooks hlen hg
    obtain ⟨g0, rfl⟩ : ∃ g0, g = g0 + 1 := ⟨g - 1, by omega⟩
    rcases hfil : st.systems.filter (fun s => !visited.contains s) with
      _ | ⟨s, rest⟩
    · rw [hfil] at hlen
      cases hlen
    have hfind : st.systems.find? (fun s => !visited.contains s) = some s :=
      find?_of_filter_cons hfil
    have hsmem : s ∈ st.systems :=
      (List.mem_filter.1 (hfil ▸ List.mem_cons_self s rest)).1
    have hrest : st.systems.filter
        (fun x => !(visited ++ [s]).contains x) = rest := by
      have h1 : st.systems.filter (fun x => !(visited ++ [s]).contains x) =
          (st.systems.filter (fun x => !visited.contains x)).filter
            (fun x => !(x == s)) := by
        rw [List.filter_filter]
        apply List.filter_congr
        intro x hx
        by_cases h2 : x = s
        · subst h2
          simp [List.contains]
        · simp [List.contains, h2]
      rw [h1, hfil]
      have hnodupf : (s :: rest).Nodup := by
        rw [← hfil]
        exact hnd.filter _
      have hsnot : s ∉ rest := (List.nodup_cons.1 hnodupf).1
      simp only [List.filter_cons]
      rw [if_neg (by simp)]
      apply List.filter_eq_self.2
      intro x hx
      simp only [Bool.not_eq_true']
      exact beq_false_of_ne (fun hxs => hsnot (hxs ▸ hx))
    have hulen : rest.length = k := by
      have := hlen
      rw [hfil] at this
      simpa using this
    have hrec := ih (visited ++ [s]) st g0 hnd hhooks
      (by rw [hrest]; exact hulen) (by omega)
    rw [hrest] at hrec
    rw [run]
    simp only [hfind]
    rcases (hhooks s hsmem).1 with hu | hu <;>
      have hue := (hhooks s hsmem).2
    · simp only [hu, hue, seqRes]
      rw [hrec]
      simp [updTrace, hu]
    · obtain ⟨g1, rfl⟩ : ∃ g1, g0 = g1 + 1 := ⟨g0 - 1, by omega⟩
      simp only [hu, hue]
      rw [show run env (g1 + 1) (Task.cmds []) st = some (st, [], false)
        from by rw [run]]
      simp only [seqRes]
      rw [hrec]
      simp [updTrace, hu, prep]

/-- C8: clock semantics of `update(delta?, next?)`.  From a quiescent
state whose systems have trivial hooks, one `update` call (a) stores as
the new `lastUpdate` the second component of `deriveTick` and fires, in
a single batch, exactly one `upd` event per system with a defined
`update` hook, each carrying the derived `(delta, next)` pair; (b) when
`delta` is given and `next` omitted, the derived pair is
`(delta, lastUpdate + delta)`, so `lastUpdate` becomes
`lastUpdate + delta`; (c) when `next` is given, the derived pair is
`(delta or next - lastUpdate, next)`, so `lastUpdate` becomes `next`;
and (d) every event of the pass carries exactly the derived pair. -/
theorem c8_update_clock (env : Env) (d n : Option Int) (st : St) (g : Nat)
    (hnd : st.systems.Nodup)
    (hhooks : ∀ s ∈ st.systems,
      ((env.sys s).update = none ∨ (env.sys s).update = some []) ∧
        (env.sys s).updateEntity = none)
    (hfl : st.flushScheduled = false)
    (hq : st.entityChangeQueue = []) (hcb : st.callbackQueue = [])
    (hg : st.systems.length + 2 ≤ g) :
    (run env g (Task.cmd (Cmd.update d n)) st =
      some ({ st with
          lastUpdate := (deriveTick st.lastUpdate d n env.wallClock).2 },
        updTrace env st.systems (deriveTick st.lastUpdate d n env.wallClock).1
          (deriveTick st.lastUpdate d n env.wallClock).2, false)) ∧
    (∀ d0 : Int, deriveTick st.lastUpdate (some d0) none env.wallClock =
      (d0, st.lastUpdate + d0)) ∧
    (∀ (d0 : Option Int) (n0 : Int),
      deriveTick st.lastUpdate d0 (some n0) env.wallClock =
        (d0.getD (n0 - st.lastUpdate), n0)) ∧
    (∀ ev ∈ updTrace env st.systems
        (deriveTick st.lastUpdate d n env.wallClock).1
        (deriveTick st.lastUpdate d n env.wallClock).2,
      ∃ s ∈ st.systems,
        ev = Ev.upd s (deriveTick st.lastUpdate d n env.wallClock).1
          (deriveTick st.lastUpdate d n env.wallClock).2) := by
  obtain ⟨ents, syss, se, pm, sto, q, cb, fl, lu⟩ := st
  simp only [St.entityChangeQueue] at hq
  simp only [St.callbackQueue] at hcb
  simp only [St.flushScheduled] at hfl
  simp only [St.systems] at hnd hhooks hg
  subst hq hcb hfl
  refine ⟨?_, fun d0 => rfl, fun d0 n0 => ?_, fun ev hev => updTrace_mem hev⟩
  · obtain ⟨g0, rfl⟩ : ∃ g0, g = g0 + 1 := ⟨g - 1, by omega⟩
    have hfil0 : syss.filter (fun s => !(([] : List Nat).contains s)) = syss :=
      List.filter_eq_self.2 (fun a _ => rfl)
    have hu := uloop_noop env (deriveTick lu d n env.wallClock).1
      (deriveTick lu d n env.wallClock).2 syss.length []
      (⟨ents, syss, se, pm, sto, [], [], true,
        (deriveTick lu d n env.wallClock).2⟩ : St) g0
      hnd hhooks (by simpa using congrArg List.length hfil0) (by omega)
    rw [show (⟨ents, syss, se, pm, sto, [], [], true,
        (deriveTick lu d n env.wallClock).2⟩ : St).systems.filter
        (fun s => !(([] : List Nat).contains s)) = syss from hfil0] at hu
    have hflush : run env g0 Task.flush
        (⟨ents, syss, se, pm, sto, [], [], true,
          (deriveTick lu d n env.wallClock).2⟩ : St) =
        some (⟨ents, syss, se, pm, sto, [], [], false,
          (deriveTick lu d n env.wallClock).2⟩, [], false) := by
      obtain ⟨g1, rfl⟩ : ∃ g1, g0 = g1 + 1 := ⟨g0 - 1, by omega⟩
      rw [run]
    rw [run]
    simp only [St.flushScheduled, Bool.not_false]
    rw [if_pos trivial]
    rw [show deriveTick
        (⟨ents, syss, se, pm, sto, [], [], true, lu⟩ : St).lastUpdate d n
        env.wallClock = deriveTick lu d n env.wallClock from rfl] at hu ⊢
    rw [hu]
    simp only []
    rw [hflush]
    simp
  · cases d0 <;> rfl

/-- C8 witness: `update(5)` from the freshly initialised state advances
`lastUpdate` from `0` to `5` and fires no hook. -/
theorem c8_update_clock_witness :
    ([] : List Nat).Nodup ∧
      run envTriv 2 (Task.cmd (Cmd.update (some 5) none)) initSt =
        some ({ initSt with lastUpdate := 5 }, [], false) := by
  refine ⟨by decide, ?_⟩
  have h := (c8_update_clock envTriv (some 5) none initSt 2 (by decide)
    (fun s hs => by cases hs) rfl rfl rfl (by decide)).1
  simpa using h

/-! ## Claim C9: systems without a `props` field -/

/-- The C9 invariant for a propless system `s`: its live entity set is
empty, it is indexed under no property of `propMap`, and no pending
change record holds an entry keyed by it. -/
def ProplessInv (s : Nat) (st : St) : Prop :=
  membersOf st s = [] ∧
  (∀ p l, (p, l) ∈ st.propMap → s ∉ l) ∧
  (∀ e m, (e, m) ∈ st.entityChangeQueue → ∀ ps, (s, ps) ∉ m)

theorem alGet_mem {α : Type} :
    ∀ {l : List (Nat × α)} {k : Nat} {v : α},
      alGet l k = some v → (k, v) ∈ l := by
  intro l
  induction l with
  | nil => intro k v h; cases h
  | cons p rest ih =>
    intro k v h
    obtain ⟨k0, v0⟩ := p
    by_cases h0 : k0 = k
    · subst h0
      simp [alGet] at h
      subst h
      exact List.mem_cons_self _ _
    · simp only [alGet, if_neg h0] at h
      exact List.mem_cons_of_mem _ (ih h)

theorem alUpd_mem {α : Type} (f : Option α → α) :
    ∀ {l : List (Nat × α)} {k k' : Nat} {v' : α},
      (k', v') ∈ alUpd f l k →
      (k' = k ∧ v' = f (alGet l k)) ∨ (k', v') ∈ l := by
  intro l
  induction l with
  | nil =>
    intro k k' v' h
    simp only [alUpd, List.mem_singleton, Prod.mk.injEq] at h
    exact Or.inl ⟨h.1, by rw [h.2]; rfl⟩
  | cons p rest ih =>
    intro k k' v' h
    obtain ⟨k0, v0⟩ := p
    simp only [alUpd] at h
    split at h
    · rename_i h0
      subst h0
      rcases List.mem_cons.1 h with h1 | h1
      · rw [Prod.mk.injEq] at h1
        refine Or.inl ⟨h1.1, ?_⟩
        rw [h1.2]
        simp [alGet]
      · exact Or.inr (List.mem_cons_of_mem _ h1)
    · rename_i h0
      rcases List.mem_cons.1 h with h1 | h1
      · exact Or.inr (by rw [h1]; exact List.mem_cons_self _ _)
      · rcases ih h1 with ⟨hk, hv⟩ | h2
        · refine Or.inl ⟨hk, ?_⟩
          rw [hv]
          simp [alGet, h0]
        · exact Or.inr (List.mem_cons_of_mem _ h2)

theorem foldl_pres {α β : Type} (P : β → Prop) (g : β → α → β) :
    ∀ (l : List α) (acc : β), P acc →
      (∀ acc2 a, a ∈ l → P acc2 → P (g acc2 a)) → P (l.foldl g acc) := by
  intro l
  induction l with
  | nil => intro acc h _; exact h
  | cons a t ih =>
    intro acc h hstep
    exact ih (g acc a) (hstep acc a (by simp) h)
      (fun acc2 a2 ha2 h2 => hstep acc2 a2 (by simp [ha2]) h2)

theorem no_entry_alUpd {s s' : Nat} (hne : s' ≠ s)
    (gg : Option (List Nat) → List Nat) {r : List (Nat × List Nat)}
    (hr : ∀ ps, (s, ps) ∉ r) :
    ∀ ps, (s, ps) ∉ alUpd gg r s' := by
  intro ps hmem
  rcases alUpd_mem _ hmem with ⟨h1, -⟩ | h2
  · exact hne h1.symm
  · exact hr ps h2

/-- A change-queue update that only touches the inner entry of a system
`s' ≠ s` introduces no entry for `s`. -/
theorem QOK_merge {s s' : Nat} (hne : s' ≠ s)
    {q : List (Nat × List (Nat × List Nat))}
    (hq : ∀ e m, (e, m) ∈ q → ∀ ps, (s, ps) ∉ m)
    (e : Nat) (gg : Option (List Nat) → List Nat) :
    ∀ e0 m0, (e0, m0) ∈
        alUpd (fun rec? => alUpd gg (rec?.getD []) s') q e →
      ∀ ps, (s, ps) ∉ m0 := by
  intro e0 m0 hm
  rcases alUpd_mem _ hm with ⟨-, hv⟩ | hmem
  · rw [hv]
    refine no_entry_alUpd hne gg ?_
    intro ps hps
    cases hge : alGet q e with
    | none => simp only [hge, Option.getD_none] at hps; cases hps
    | some r0 =>
      simp only [hge, Option.getD_some] at hps
      exact hq e r0 (alGet_mem hge) ps hps
  · exact hq e0 m0 hmem

/-- The removal-entry creation of `removeEntityBody`, applied for a
system `s' ≠ s`, introduces no entry for `s`. -/
theorem QOK_removal {s s' : Nat} (hne : s' ≠ s)
    {q : List (Nat × List (Nat × List Nat))}
    (hq : ∀ e m, (e, m) ∈ q → ∀ ps, (s, ps) ∉ m) (e : Nat) :
    ∀ e0 m0, (e0, m0) ∈
        alUpd (fun rec? =>
          let r := rec?.getD []
          match alGet r s' with
          | some _ => r
          | none => r ++ [(s', [])]) q e →
      ∀ ps, (s, ps) ∉ m0 := by
  intro e0 m0 hm
  rcases alUpd_mem _ hm with ⟨-, hv⟩ | hmem
  · rw [hv]
    intro ps hps
    have hr : ∀ ps0, (s, ps0) ∉ (alGet q e).getD [] := by
      intro ps0 hps0
      cases hge : alGet q e with
      | none => simp only [hge, Option.getD_none] at hps0; cases hps0
      | some r0 =>
        simp only [hge, Option.getD_some] at hps0
        exact hq e r0 (alGet_mem hge) ps0 hps0
    simp only [] at hps
    cases hge2 : alGet ((alGet q e).getD []) s' with
    | some v =>
      simp only [hge2] at hps
      exact hr ps hps
    | none =>
      simp only [hge2] at hps
      rcases List.mem_append.1 hps with h1 | h1
      · exact hr ps h1
      · simp only [List.mem_singleton, Prod.mk.injEq] at h1
        exact hne h1.1.symm
  · exact hq e0 m0 hmem

theorem ensureRec_propless {s : Nat} {st : St} (e : Nat)
    (hinv : ProplessInv s st) : ProplessInv s (ensureRec st e) := by
  unfold ensureRec
  split
  · exact hinv
  · refine ⟨hinv.1, hinv.2.1, ?_⟩
    intro e0 m0 hm ps hps
    rcases List.mem_append.1 hm with h | h
    · exact hinv.2.2 e0 m0 h ps hps
    · simp only [List.mem_singleton, Prod.mk.injEq] at h
      rw [h.2] at hps
      cases hps

theorem addEntityBody_propless (env : Env) {s : Nat} (e : Nat) (st : St)
    (hp : (env.sys s).props = none)
    (hinv : ProplessInv s st) :
    ProplessInv s (addEntityBody env e st).1 := by
  simp only [addEntityBody]
  split
  · exact hinv
  · refine foldl_pres (ProplessInv s) _ _ _
      (ensureRec_propless e ⟨hinv.1, hinv.2.1, hinv.2.2⟩) ?_
    intro acc s' hmem hP
    cases hps : (env.sys s').props with
    | none =>
      simp only [hps]
      exact hP
    | some l =>
      simp only [hps]
      split
      · have hne : s' ≠ s := fun hss => by
          rw [hss, hp] at hps
          exact Option.noConfusion hps
        exact ⟨hP.1, hP.2.1, QOK_merge hne hP.2.2 e _⟩
      · exact hP

theorem removeEntityBody_propless {s : Nat} (e : Nat) (st : St)
    (hinv : ProplessInv s st) :
    ProplessInv s (removeEntityBody e st).1 := by
  simp only [removeEntityBody]
  refine foldl_pres (ProplessInv s) _ _ _
    (ensureRec_propless e ⟨hinv.1, hinv.2.1, hinv.2.2⟩) ?_
  intro acc s' hmem hP
  split
  · rename_i hc
    by_cases hss : s' = s
    · subst hss
      rw [hP.1] at hc
      simp [List.contains] at hc
    · exact ⟨hP.1, hP.2.1, QOK_removal hss hP.2.2 e⟩
  · exact hP

theorem addSystemBody_propless (env : Env) {s : Nat} (s0 : Nat) (st : St)
    (hp : (env.sys s).props = none)
    (hinv : ProplessInv s st) :
    ProplessInv s (addSystemBody env s0 st).1 := by
  simp only [addSystemBody]
  have h0 : membersOf
      ({ st with
          sysEntities := alUpd (fun m => m.getD []) st.sysEntities s0 } : St)
      s = [] := by
    simp only [membersOf, alGet_alUpd]
    by_cases h : s0 = s
    · simp only [if_pos h, Option.getD_some]
      subst h
      exact hinv.1
    · simp only [if_neg h]
      exact hinv.1
  split
  · exact ⟨h0, hinv.2.1, hinv.2.2⟩
  · rename_i l hps
    have hne : s0 ≠ s := fun hss => by
      rw [hss, hp] at hps
      exact Option.noConfusion hps
    have h2 : ∀ p2 l2, (p2, l2) ∈ l.foldl
        (fun pm p => alUpd (fun cur => cur.getD [] ++ [s0]) pm p)
        st.propMap → s ∉ l2 := by
      refine foldl_pres
        (fun pm => ∀ p2 l2, (p2, l2) ∈ pm → s ∉ l2) _ _ _ hinv.2.1 ?_
      intro pm p hpmem hPacc p2 l2 hmem hsl2
      rcases alUpd_mem _ hmem with ⟨-, hv⟩ | hmem2
      · rw [hv] at hsl2
        rcases List.mem_append.1 hsl2 with h | h
        · cases hge : alGet pm p with
          | none => simp only [hge, Option.getD_none] at h; cases h
          | some l0 =>
            simp only [hge, Option.getD_some] at h
            exact hPacc p l0 (alGet_mem hge) h
        · simp only [List.mem_singleton] at h
          exact hne h.symm
      · exact hPacc p2 l2 hmem2 hsl2
    refine foldl_pres (ProplessInv s) _ _ _ ⟨h0, h2, hinv.2.2⟩ ?_
    intro acc e hmem2 hPacc
    split
    · exact ⟨hPacc.1, hPacc.2.1, QOK_merge hne hPacc.2.2 e _⟩
    · exact hPacc

theorem removeSystemBody_propless (env : Env) {s : Nat} (s0 : Nat) (st : St)
    (hp : (env.sys s).props = none)
    (hinv : ProplessInv s st) :
    ProplessInv s (removeSystemBody env s0 st).1 := by
  simp only [removeSystemBody]
  by_cases hs0 : s0 = s
  · subst hs0
    simp only [hp]
    rw [show membersOf
        ({ st with systems := st.systems.erase s0 } : St) s0 = [] from hinv.1]
    split
    · exact ⟨hinv.1, hinv.2.1, hinv.2.2⟩
    · exact ⟨hinv.1, hinv.2.1, hinv.2.2⟩
  · have hstep3 : ∀ st2 : St, ProplessInv s st2 →
        ∀ (l0 : List Nat), ProplessInv s (l0.foldl
          (fun acc e =>
            match alGet acc.entityChangeQueue e with
            | some _ => acc
            | none =>
              { acc with
                entityChangeQueue :=
                  acc.entityChangeQueue ++ [(e, [(s0, [])])] }) st2) := by
      intro st2 hI l0
      refine foldl_pres (ProplessInv s) _ _ _ hI ?_
      intro acc e hm hPacc
      split
      · exact hPacc
      · refine ⟨hPacc.1, hPacc.2.1, ?_⟩
        intro e0 m0 hm0 ps hps
        rcases List.mem_append.1 hm0 with h1 | h1
        · exact hPacc.2.2 e0 m0 h1 ps hps
        · simp only [List.mem_singleton, Prod.mk.injEq] at h1
          rw [h1.2] at hps
          simp only [List.mem_singleton, Prod.mk.injEq] at hps
          exact hs0 hps.1.symm
    cases hps : (env.sys s0).props with
    | none =>
      simp only [hps]
      split
      · refine hstep3 _ ⟨?_, ?_, ?_⟩ _
        · exact hinv.1
        · exact hinv.2.1
        · exact hinv.2.2
      · exact ⟨hinv.1, hinv.2.1, hinv.2.2⟩
    | some l =>
      simp only [hps]
      have h2 : ∀ p2 l2, (p2, l2) ∈ l.foldl
          (fun pm p =>
            match alGet pm p with
            | none => pm
            | some lst =>
              match lst.findIdx? (fun x => x = s0) with
              | none => pm
              | some i => alUpd (fun _ => lst.take i) pm p)
          st.propMap → s ∉ l2 := by
        refine foldl_pres
          (fun pm => ∀ p2 l2, (p2, l2) ∈ pm → s ∉ l2) _ _ _ hinv.2.1 ?_
        intro pm p hpm hPacc p2 l2 hmem hsl
        cases hg : alGet pm p with
        | none =>
          simp only [hg] at hmem
          exact hPacc _ _ hmem hsl
        | some lst =>
          simp only [hg] at hmem
          cases hf : lst.findIdx? (fun x => x = s0) with
          | none =>
            simp only [hf] at hmem
            exact hPacc _ _ hmem hsl
          | some i =>
            simp only [hf] at hmem
            rcases alUpd_mem _ hmem with ⟨-, hv⟩ | hmem2
            · rw [hv] at hsl
              exact hPacc p lst (alGet_mem hg) (List.take_subset i lst hsl)
            · exact hPacc _ _ hmem2 hsl
      split
      · refine hstep3 _ ⟨?_, ?_, ?_⟩ _
        · exact hinv.1
        · exact h2
        · exact hinv.2.2
      · exact ⟨hinv.1, h2, hinv.2.2⟩

theorem queueEntityChangeBody_propless {s : Nat} (e p : Nat) (st : St)
    (hinv : ProplessInv s st) :
    ProplessInv s (queueEntityChangeBody e p st).1 := by
  simp only [queueEntityChangeBody]
  split
  · exact hinv
  · split
    · exact hinv
    · rename_i systems hsys
      have hmem0 : (p, systems) ∈ st.propMap := alGet_mem hsys
      have hall : ∀ s' ∈ systems, s' ≠ s := fun s' hs' hss =>
        hinv.2.1 p systems hmem0 (hss ▸ hs')
      refine foldl_pres (ProplessInv s) _ _ _ (ensureRec_propless e hinv) ?_
      intro acc s' hm hPacc
      exact ⟨hPacc.1, hPacc.2.1, QOK_merge (hall s' hm) hPacc.2.2 e _⟩

/-- Master preservation lemma for C9: no engine operation — public
command, hook body, enqueued callback, update pass or flush — ever
breaks the propless invariant: the system stays out of every live set,
every property index list and every pending change record. -/
theorem run_propless_inv (env : Env) (s : Nat)
    (hp : (env.sys s).props = none) :
    ∀ f t st st' tr b, run env f t st = some (st', tr, b) →
      ProplessInv s st → ProplessInv s st' := by
  intro f
  induction f with
  | zero => intro t st st' tr b h _; simp [run] at h
  | succ f ih =>
    intro t st st' tr b h hinv
    cases t with
    | cmds cs =>
      cases cs with
      | nil =>
        simp only [run, Option.some.injEq, Prod.mk.injEq] at h
        obtain ⟨rfl, -, -⟩ := h
        exact hinv
      | cons c rest =>
        simp only [run] at h
        rcases seqRes_some_elim h with ⟨-, h1⟩ |
          ⟨st1, tr1, tr2, h1, h2, -⟩
        · exact ih _ _ _ _ _ h1 hinv
        · exact ih _ _ _ _ _ h2 (ih _ _ _ _ _ h1 hinv)
    | uloop visited d n =>
      simp only [run] at h
      split at h
      · simp only [Option.some.injEq, Prod.mk.injEq] at h
        obtain ⟨rfl, -, -⟩ := h
        exact hinv
      · rename_i s2 hfind
        cases hU : (env.sys s2).update with
        | none =>
          simp only [hU] at h
          rcases seqRes_some_elim h with ⟨-, h1⟩ |
            ⟨st1, tr1, tr2, h1, h2, -⟩
          · cases hUE : (env.sys s2).updateEntity with
            | none =>
              simp only [hUE, Option.some.injEq, Prod.mk.injEq] at h1
              obtain ⟨rfl, -, -⟩ := h1
              exact hinv
            | some body =>
              simp only [hUE] at h1
              exact ih _ _ _ _ _ h1 hinv
          · have hI1 : ProplessInv s st1 := by
              cases hUE : (env.sys s2).updateEntity with
              | none =>
                simp only [hUE, Option.some.injEq, Prod.mk.injEq] at h1
                obtain ⟨rfl, -, -⟩ := h1
                exact hinv
              | some body =>
                simp only [hUE] at h1
                exact ih _ _ _ _ _ h1 hinv
            exact ih _ _ _ _ _ h2 hI1
        | some body =>
          simp only [hU] at h
          obtain ⟨tr0, h', -⟩ := prep_some_elim h
          rcases seqRes_some_elim h' with ⟨-, h1⟩ |
            ⟨st1, tr1, tr2, h1, h2, -⟩
          · exact ih _ _ _ _ _ h1 hinv
          · have hI1 := ih _ _ _ _ _ h1 hinv
            rcases seqRes_some_elim h2 with ⟨-, h3⟩ |
              ⟨st2, tr3, tr4, h3, h4, -⟩
            · cases hUE : (env.sys s2).updateEntity with
              | none =>
                simp only [hUE, Option.some.injEq, Prod.mk.injEq] at h3
                obtain ⟨rfl, -, -⟩ := h3
                exact hI1
              | some body2 =>
                simp only [hUE] at h3
                exact ih _ _ _ _ _ h3 hI1
            · have hI2 : ProplessInv s st2 := by
                cases hUE : (env.sys s2).updateEntity with
                | none =>
                  simp only [hUE, Option.some.injEq, Prod.mk.injEq] at h3
                  obtain ⟨rfl, -, -⟩ := h3
                  exact hI1
                | some body2 =>
                  simp only [hUE] at h3
                  exact ih _ _ _ _ _ h3 hI1
              exact ih _ _ _ _ _ h4 hI2
    | eloop s2 members d n =>
      simp only [run] at h
      split at h
      · simp only [Option.some.injEq, Prod.mk.injEq] at h
        obtain ⟨rfl, -, -⟩ := h
        exact hinv
      · split at h
        · simp only [Option.some.injEq, Prod.mk.injEq] at h
          obtain ⟨rfl, -, -⟩ := h
          exact hinv
        · obtain ⟨tr0, h', -⟩ := prep_some_elim h
          rcases seqRes_some_elim h' with ⟨-, h1⟩ |
            ⟨st1, tr1, tr2, h1, h2, -⟩
          · exact ih _ _ _ _ _ h1 hinv
          · exact ih _ _ _ _ _ h2 (ih _ _ _ _ _ h1 hinv)
    | flush =>
      simp only [run] at h
      split at h
      · split at h
        · simp only [Option.some.injEq, Prod.mk.injEq] at h
          obtain ⟨rfl, -, -⟩ := h
          exact hinv
        · obtain ⟨tr0, h', -⟩ := prep_some_elim h
          rcases seqRes_some_elim h' with ⟨-, h1⟩ |
            ⟨st1, tr1, tr2, h1, h2, -⟩
          · exact ih _ _ _ _ _ h1 hinv
          · exact ih _ _ _ _ _ h2 (ih _ _ _ _ _ h1 hinv)
      · rename_i e2 rest hcq
        have hq1 : ∀ e0 m0, (e0, m0) ∈ rest → ∀ ps0, (s, ps0) ∉ m0 := by
          intro e0 m0 hm0 ps0 hps0
          exact hinv.2.2 e0 m0
            (by rw [hcq]; exact List.mem_cons_of_mem _ hm0) ps0 hps0
        exact ih _ _ _ _ _ h ⟨hinv.1, hinv.2.1, hq1⟩
      · rename_i e2 s2 ps more rest hcq
        have hmem0 : (e2, (s2, ps) :: more) ∈ st.entityChangeQueue := by
          rw [hcq]
          exact List.mem_cons_self _ _
        have hne2 : s2 ≠ s := by
          intro hss
          refine hinv.2.2 e2 ((s2, ps) :: more) hmem0 ps ?_
          rw [hss]
          exact List.mem_cons_self _ _
        have hq1 : ∀ e0 m0, (e0, m0) ∈ ((e2, more) :: rest) →
            ∀ ps0, (s, ps0) ∉ m0 := by
          intro e0 m0 hm0 ps0 hps0
          rcases List.mem_cons.1 hm0 with h1 | h1
          · rw [Prod.mk.injEq] at h1
            exact hinv.2.2 e2 ((s2, ps) :: more) hmem0 ps0
              (List.mem_cons_of_mem _ (h1.2 ▸ hps0))
          · exact hinv.2.2 e0 m0
              (by rw [hcq]; exact List.mem_cons_of_mem _ h1) ps0 hps0
        have hI1 : ProplessInv s
            ({ st with entityChangeQueue := (e2, more) :: rest } : St) :=
          ⟨hinv.1, hinv.2.1, hq1⟩
        have hstep : ∀ (ev : Ev) (st2 : St), ProplessInv s st2 →
            ∀ body trx,
              prep [ev] (seqRes (run env f (Task.cmds body) st2)
                (fun st3 => run env f Task.flush st3)) = some (st', trx, b) →
              ProplessInv s st' := by
          intro ev st2 hI body trx hh
          obtain ⟨tr0, h', -⟩ := prep_some_elim hh
          rcases seqRes_some_elim h' with ⟨-, h1⟩ |
            ⟨st3, tr1, tr2, h1, h2, -⟩
          · exact ih _ _ _ _ _ h1 hI
          · exact ih _ _ _ _ _ h2 (ih _ _ _ _ _ h1 hI)
        have hmemOf : membersOf
            ({ ({ st with entityChangeQueue := (e2, more) :: rest } : St) with
              sysEntities := alUpd (fun m => (m.getD []).erase e2)
                st.sysEntities s2 } : St) s = [] := by
          simp only [membersOf, alGet_alUpd, if_neg hne2]
          exact hinv.1
        have hmemOf2 : membersOf
            ({ ({ st with entityChangeQueue := (e2, more) :: rest } : St) with
              sysEntities := alUpd (fun m => m.getD [] ++ [e2])
                st.sysEntities s2 } : St) s = [] := by
          simp only [membersOf, alGet_alUpd, if_neg hne2]
          exact hinv.1
        split at h
        · split at h
          · exact ih _ _ _ _ _ h hI1
          · exact hstep _ _ hI1 _ _ h
        · split at h
          · exact ih _ _ _ _ _ h ⟨hmemOf, hinv.2.1, hq1⟩
          · exact hstep _ _ ⟨hmemOf, hinv.2.1, hq1⟩ _ _ h
        · split at h
          · exact ih _ _ _ _ _ h ⟨hmemOf2, hinv.2.1, hq1⟩
          · exact hstep _ _ ⟨hmemOf2, hinv.2.1, hq1⟩ _ _ h
        · exact ih _ _ _ _ _ h hI1
    | cmd c =>
      cases c with
      | throwErr =>
        simp only [run, Option.some.injEq, Prod.mk.injEq] at h
        obtain ⟨rfl, -, -⟩ := h
        exact hinv
      | enqueue c0 =>
        simp only [run, Option.some.injEq, Prod.mk.injEq] at h
        obtain ⟨rfl, -, -⟩ := h
        exact hinv
      | setProp e p v =>
        simp only [run] at h
        split at h
        · simp only [Option.some.injEq, Prod.mk.injEq] at h
          obtain ⟨rfl, -, -⟩ := h
          exact hinv
        · exact ih _ _ _ _ _ h ⟨hinv.1, hinv.2.1, hinv.2.2⟩
      | delProp e p =>
        simp only [run] at h
        split at h
        · exact ih _ _ _ _ _ h ⟨hinv.1, hinv.2.1, hinv.2.2⟩
        · simp only [Option.some.injEq, Prod.mk.injEq] at h
          obtain ⟨rfl, -, -⟩ := h
          exact hinv
      | addEntity e =>
        simp only [run] at h
        split at h
        · obtain ⟨tr0, h', -⟩ := prep_some_elim h
          exact ih _ _ _ _ _ h'
            (addEntityBody_propless env e _ hp ⟨hinv.1, hinv.2.1, hinv.2.2⟩)
        · simp only [Option.some.injEq, Prod.mk.injEq] at h
          obtain ⟨rfl, -, -⟩ := h
          exact addEntityBody_propless env e _ hp ⟨hinv.1, hinv.2.1, hinv.2.2⟩
      | removeEntity e =>
        simp only [run] at h
        split at h
        · obtain ⟨tr0, h', -⟩ := prep_some_elim h
          exact ih _ _ _ _ _ h'
            (removeEntityBody_propless e _ ⟨hinv.1, hinv.2.1, hinv.2.2⟩)
        · simp only [Option.some.injEq, Prod.mk.injEq] at h
          obtain ⟨rfl, -, -⟩ := h
          exact removeEntityBody_propless e _ ⟨hinv.1, hinv.2.1, hinv.2.2⟩
      | addSystem s0 =>
        simp only [run] at h
        split at h
        · obtain ⟨tr0, h', -⟩ := prep_some_elim h
          exact ih _ _ _ _ _ h'
            (addSystemBody_propless env s0 _ hp ⟨hinv.1, hinv.2.1, hinv.2.2⟩)
        · simp only [Option.some.injEq, Prod.mk.injEq] at h
          obtain ⟨rfl, -, -⟩ := h
          exact addSystemBody_propless env s0 _ hp ⟨hinv.1, hinv.2.1, hinv.2.2⟩
      | removeSystem s0 =>
        simp only [run] at h
        split at h
        · obtain ⟨tr0, h', -⟩ := prep_some_elim h
          exact ih _ _ _ _ _ h'
            (removeSystemBody_propless env s0 _ hp
              ⟨hinv.1, hinv.2.1, hinv.2.2⟩)
        · simp only [Option.some.injEq, Prod.mk.injEq] at h
          obtain ⟨rfl, -, -⟩ := h
          exact removeSystemBody_propless env s0 _ hp
            ⟨hinv.1, hinv.2.1, hinv.2.2⟩
      | queueEntityChange e p =>
        simp only [run] at h
        split at h
        · obtain ⟨tr0, h', -⟩ := prep_some_elim h
          exact ih _ _ _ _ _ h'
            (queueEntityChangeBody_propless e p _
              ⟨hinv.1, hinv.2.1, hinv.2.2⟩)
        · simp only [Option.some.injEq, Prod.mk.injEq] at h
          obtain ⟨rfl, -, -⟩ := h
          exact queueEntityChangeBody_propless e p _
            ⟨hinv.1, hinv.2.1, hinv.2.2⟩
      | update d n =>
        simp only [run] at h
        split at h
        · split at h
          · exact Option.noConfusion h
          · rename_i st2 tr2 b2 heq1
            split at h
            · exact Option.noConfusion h
            · rename_i st3 tr3 b3 heq2
              simp only [Option.some.injEq, Prod.mk.injEq] at h
              obtain ⟨rfl, -, -⟩ := h
              exact ih _ _ _ _ _ heq2
                (ih _ _ _ _ _ heq1 ⟨hinv.1, hinv.2.1, hinv.2.2⟩)
        · exact ih _ _ _ _ _ h ⟨hinv.1, hinv.2.1, hinv.2.2⟩
      | batch cs =>
        simp only [run] at h
        split at h
        · split at h
          · exact Option.noConfusion h
          · rename_i st2 tr2 b2 heq1
            split at h
            · exact Option.noConfusion h
            · rename_i st3 tr3 b3 heq2
              simp only [Option.some.injEq, Prod.mk.injEq] at h
              obtain ⟨rfl, -, -⟩ := h
              exact ih _ _ _ _ _ heq2
                (ih _ _ _ _ _ heq1 ⟨hinv.1, hinv.2.1, hinv.2.2⟩)
        · exact ih _ _ _ _ _ h ⟨hinv.1, hinv.2.1, hinv.2.2⟩

theorem upd_mem_updTrace (env : Env) (d n : Int) :
    ∀ {l : List Nat} {s : Nat}, s ∈ l → (env.sys s).update.isSome = true →
      Ev.upd s d n ∈ updTrace env l d n := by
  intro l
  induction l with
  | nil => intro s hs _; cases hs
  | cons a t ih =>
    intro s hs hu
    simp only [updTrace, List.map_cons, List.flatten_cons]
    rcases List.mem_cons.1 hs with rfl | hs2
    · rw [if_pos hu]
      exact List.mem_append.2 (Or.inl (by simp))
    · exact List.mem_append.2 (Or.inr (ih hs2 hu))

/-- C9 scenario: system 1 has no `props` field but a defined (empty)
`update` hook. -/
def envC9 : Env :=
  { sys := fun s =>
      if s = 1 then { SysDef.empty with update := some [] } else SysDef.empty
    cb := fun _ => []
    wallClock := 0 }

/-- C9: a system whose definition has no `props` field is never indexed
under any property and never acquires a member: across every engine
operation (any command, hook body, callback, update pass or flush) its
live entity set stays empty and it stays out of every `propMap` list —
while, being registered, every update pass still emits its `update`
hook invocation. -/
theorem c9_propless_system (env : Env) (s : Nat)
    (hp : (env.sys s).props = none)
    (f : Nat) (t : Task) (st st' : St) (tr : List Ev) (b : Bool)
    (hrun : run env f t st = some (st', tr, b))
    (hinv : ProplessInv s st) :
    (membersOf st' s = [] ∧
      (∀ p l, (p, l) ∈ st'.propMap → s ∉ l) ∧
      ProplessInv s st') ∧
    (∀ d n : Int, (env.sys s).update.isSome = true → s ∈ st'.systems →
      Ev.upd s d n ∈ updTrace env st'.systems d n) := by
  have h := run_propless_inv env s hp f t st st' tr b hrun hinv
  exact ⟨⟨h.1, h.2.1, h⟩, fun d n hu hs => upd_mem_updTrace env d n hs hu⟩

/-- C9 witness: registering the propless system 1 leaves its live set
empty and the property index empty, and an update pass would still fire
its `update` hook. -/
theorem c9_propless_system_witness :
    ProplessInv 1 initSt ∧
    (membersOf (⟨[], [1], [(1, [])], [], [], [], [], false, 0⟩ : St) 1 = [] ∧
      Ev.upd 1 2 3 ∈ updTrace envC9
        (⟨[], [1], [(1, [])], [], [], [], [], false, 0⟩ : St).systems 2 3) := by
  have hI : ProplessInv 1 initSt :=
    ⟨rfl, fun p l hm => (List.not_mem_nil _ hm).elim,
      fun e m hm => (List.not_mem_nil _ hm).elim⟩
  have hrun : run envC9 6 (Task.cmd (Cmd.addSystem 1)) initSt =
      some (⟨[], [1], [(1, [])], [], [], [], [], false, 0⟩, [], false) := by
    decide
  have h := c9_propless_system envC9 1 rfl 6 (Task.cmd (Cmd.addSystem 1))
    initSt ⟨[], [1], [(1, [])], [], [], [], [], false, 0⟩ [] false hrun hI
  exact ⟨hI, h.1.1, h.2 2 3 rfl (by decide)⟩

/-- C10 witness: removing the unknown entity 5 from the freshly
initialised state is a complete no-op. -/
theorem c10_remove_absent_entity_witness :
    (5 ∉ (initSt : St).entities) ∧
    run envTriv 3 (Task.cmd (Cmd.removeEntity 5)) initSt =
      some (initSt, [], false) :=
  ⟨by decide, c10_remove_absent_entity envTriv 0 5 initSt (by decide)
    (fun s hs => (List.not_mem_nil _ hs).elim) rfl rfl rfl⟩

end EcsProxy
